import Mathlib

/-!
Verification of the AgonDev tile-map example (`src/tilemap/src/main.c`).

The program is a linear script that drives the Agon display coprocessor
(the "VDP") over a one-way command channel.  We embed it shallowly as a
pure function from its inputs (the content of the image file and the
stream of polled keycodes) to the sequence of events it emits: file
operations and VDP commands.  The VDP itself is an external collaborator;
its buffer/bitmap semantics is modelled separately (see `vdpStep`) so that
claims about "which bitmap receives which pixel data" can be stated.

C's `uint8_t` loop counters and `uint16_t` identifiers are modelled as
`Nat` with explicit `% 256` / `% 65536` reductions exactly where the
machine arithmetic wraps.  The possibly non-terminating C loops (an
8-bit counter compared against a 16-bit bound) are modelled with fuel;
termination of the C code is existence of sufficient fuel.
-/

namespace Tilemap

/-- `const uint8_t screen_mode = 8;` -/
def screen_mode : Nat := 8

/-- `const uint8_t RGBA2222_format = 1;` -/
def RGBA2222_format : Nat := 1

/-- `const uint16_t chunkSize = 2048;` -/
def chunkSize : Nat := 2048

/-- `const uint16_t chunkStoreID = 5000;` -/
def chunkStoreID : Nat := 5000

/-- `const uint16_t tileStartID = 0;` -/
def tileStartID : Nat := 0

/-- `const uint16_t cellWidth = 16;` -/
def cellWidth : Nat := 16

/-- `const uint16_t cellHeight = 16;` -/
def cellHeight : Nat := 16

/-- `const uint16_t cellRows = 5;` -/
def cellRows : Nat := 5

/-- `const uint16_t cellColumns = 8;` -/
def cellColumns : Nat := 8

/-- `char fname[] = "basictiles_merged.RGB2";` -/
def fname : String := "basictiles_merged.RGB2"

/-- Modelled from the spec: `BLUE` is a named colour constant supplied by the
external `agon/vdp.h` header, which is not part of this repository (standard
logical colour 4).  Its numeric value is irrelevant to every claim below. -/
def BLUE : Nat := 4

/-- One VDP (display coprocessor) command, one constructor per `vdp_*` call
appearing in `main.c`, carrying the arguments of the call. -/
inductive Cmd where
  | vdpMode (m : Nat)
  | cursorEnable (b : Bool)
  | setTextBgColour (c : Nat)
  | clearScreen
  | setPixelCoordinates
  | cursorTab (x y : Nat)
  | printText (s : String)
  | clearBuffer (bufID : Nat)
  | writeBlockData (bufID len : Nat) (data : List Nat)
  | splitByWidthMultipleFrom (srcID width count startID : Nat)
  | selectBitmap (bmID : Nat)
  | bitmapFromBuffer (w h fmt : Nat)
  | plotBitmap (x y : Nat)
  deriving Repr, DecidableEq

/-- One observable event of the program: a file operation (`fopen`, `fread`
with the number of bytes actually read, `fclose`), a keyboard poll, or a VDP
command. -/
inductive Ev where
  | openFile (name mode : String)
  | readFile (n : Nat)
  | closeFile
  | pollKey (k : Nat)
  | vdp (c : Cmd)
  deriving Repr, DecidableEq

/-- The number of bytes `fread(readChunk, 1, count, f)` actually reads when
the file content is `file` (`none` models a failed `fopen`) and the read
position is `pos`. -/
def freadCount (file : Option (List Nat)) (pos count : Nat) : Nat :=
  match file with
  | none => 0
  | some bytes => min count (bytes.length - pos)

/-- The content of the C array `readChunk` after
`fread(readChunk, 1, count, f)`: the bytes actually read replace the front of
the buffer, the remaining bytes keep their previous values.  A failed `fopen`
(`file = none`) is modelled from the spec as a silently ignored read that
leaves the buffer unchanged. -/
def freadBuf (file : Option (List Nat)) (pos : Nat) (buf : List Nat) (count : Nat) : List Nat :=
  match file with
  | none => buf
  | some bytes =>
      let n := min count (bytes.length - pos)
      ((bytes.drop pos).take n) ++ buf.drop n

/-- The inner loop of `load_tiles_from_file`:
`for (uint8_t rowLoop = 0; rowLoop < blockCount; rowLoop++)` selecting each
new buffer and converting it to a bitmap, incrementing the running
`startBitmapID` (`uint16_t`, hence `% 65536`).  The `uint8_t` counter wraps
at 256, so the loop is modelled with fuel; `none` means the fuel was
exhausted before the loop exited. -/
def innerLoop (cw ch bc : Nat) : Nat → Nat → Nat → Option (List Ev × Nat)
  | 0, _, _ => none
  | fuel + 1, ctr, bid =>
      if ctr < bc then
        match innerLoop cw ch bc fuel ((ctr + 1) % 256) ((bid + 1) % 65536) with
        | none => none
        | some p =>
            some (Ev.vdp (Cmd.selectBitmap bid) ::
                  Ev.vdp (Cmd.bitmapFromBuffer cw ch RGBA2222_format) :: p.1, p.2)
      else some ([], bid)

/-- The outer loop of `load_tiles_from_file`:
`for (uint8_t chunkLoop = 0; chunkLoop < rowCount; chunkLoop++)` clearing the
chunk buffer, reading a chunk, writing it to the VDP, splitting it and
converting the pieces.  State: `ctr` is the `uint8_t` loop counter, `pos` the
file position, `buf` the content of the global `readChunk`, `bid` the running
`uint16_t` bitmap identifier. -/
def outerLoop (file : Option (List Nat)) (cw ch rc bc : Nat) :
    Nat → Nat → Nat → List Nat → Nat → Option (List Ev)
  | 0, _, _, _, _ => none
  | fuel + 1, ctr, pos, buf, bid =>
      if ctr < rc then
        match innerLoop cw ch bc (fuel + 1) 0 bid with
        | none => none
        | some p =>
            match outerLoop file cw ch rc bc fuel ((ctr + 1) % 256)
                (pos + freadCount file pos chunkSize) (freadBuf file pos buf chunkSize) p.2 with
            | none => none
            | some evs =>
                some (Ev.vdp (Cmd.clearBuffer chunkStoreID) ::
                      Ev.readFile (freadCount file pos chunkSize) ::
                      Ev.vdp (Cmd.writeBlockData chunkStoreID chunkSize
                        (freadBuf file pos buf chunkSize)) ::
                      Ev.vdp (Cmd.splitByWidthMultipleFrom chunkStoreID cw bc bid) ::
                      (p.1 ++ evs))
      else some []

/-- `load_tiles_from_file(fileName, startBitmapID, cellWidth, cellHeight,
rowCount, blockCount)`.  `file` is the content of the file system entry named
`fileName` (`none` when `fopen` fails); the global `readChunk` is
zero-initialised (`char readChunk[2048]`) and this is the program's only call
site.  Returns the emitted event sequence, or `none` when the fuel does not
suffice (i.e. the C loops have not yet exited). -/
def load_tiles_from_file (fuel : Nat) (file : Option (List Nat)) (fileName : String)
    (startBitmapID cw ch rowCount blockCount : Nat) : Option (List Ev) :=
  match outerLoop file cw ch rowCount blockCount fuel 0 0 (List.replicate 2048 0) startBitmapID with
  | none => none
  | some evs => some (Ev.openFile fileName "r" :: evs ++ [Ev.closeFile])

/-- The event sequence of `load_tiles_from_file`, defaulting to `[]` when the
fuel is insufficient. -/
def loadEvents (fuel : Nat) (file : Option (List Nat)) (fileName : String)
    (startBitmapID cw ch rowCount blockCount : Nat) : List Ev :=
  (load_tiles_from_file fuel file fileName startBitmapID cw ch rowCount blockCount).getD []

/-- `load_tiles_from_file` terminates: some amount of fuel makes the loops
exit. -/
def LoadTerminates (file : Option (List Nat)) (fileName : String)
    (startBitmapID cw ch rowCount blockCount : Nat) : Prop :=
  ∃ fuel, (load_tiles_from_file fuel file fileName startBitmapID cw ch rowCount blockCount).isSome

/-- The inner loop of `display_tiles`:
`for (uint8_t cLoop = 0; cLoop < columns; cLoop++)`, with `k` the remaining
iterations, `c` the current column and `bid` the running `uint16_t`
`startBufferID`.  Returns the emitted commands and the final counter value. -/
def displayRowCmds (r : Nat) : Nat → Nat → Nat → List Cmd × Nat
  | 0, _, bid => ([], bid)
  | k + 1, c, bid =>
      (Cmd.selectBitmap bid :: Cmd.plotBitmap (10 + c * 20) (10 + r * 20) ::
        (displayRowCmds r k (c + 1) ((bid + 1) % 65536)).1,
       (displayRowCmds r k (c + 1) ((bid + 1) % 65536)).2)

/-- The outer loop of `display_tiles`:
`for (uint8_t rLoop = 0; rLoop < rows; rLoop++)`, with `k` the remaining
iterations and `r` the current row. -/
def displayGridCmds (columns : Nat) : Nat → Nat → Nat → List Cmd
  | 0, _, _ => []
  | k + 1, r, bid =>
      (displayRowCmds r columns 0 bid).1 ++
        displayGridCmds columns k (r + 1) (displayRowCmds r columns 0 bid).2

/-- `display_tiles(rows, columns, startBufferID)`.  Both loop counters are
`uint8_t` compared against `uint8_t` bounds, so the loops run exactly
`rows`/`columns` iterations. -/
def display_tiles (rows columns startBufferID : Nat) : List Cmd :=
  displayGridCmds columns rows 0 startBufferID

/-- The `while(true) { if (vdp_getKeyCode() == 27) break; }` loop at the end
of `main`: given the stream of polled keycodes, returns the index of the poll
at which the loop exits, or `none` when the stream is exhausted without an
ESC (keycode 27) ever being observed. -/
def waitForEsc : List Nat → Option Nat
  | [] => none
  | k :: ks => if k = 27 then some 0 else (waitForEsc ks).map (· + 1)

/-- The screen-setup and title-printing commands at the top of `main`. -/
def setupEvents : List Ev :=
  [Ev.vdp (Cmd.vdpMode screen_mode),
   Ev.vdp (Cmd.cursorEnable false),
   Ev.vdp (Cmd.setTextBgColour BLUE),
   Ev.vdp Cmd.clearScreen,
   Ev.vdp Cmd.setPixelCoordinates,
   Ev.vdp (Cmd.cursorTab 0 27),
   Ev.vdp (Cmd.printText "AgonDev Tile Map example"),
   Ev.vdp (Cmd.cursorTab 0 29),
   Ev.vdp (Cmd.printText "Press ESC to exit")]

/-- The tidy-up commands `main` runs after the wait loop exits: restore the
text background colour, clear the screen, re-enable the text cursor. -/
def teardownEvents : List Ev :=
  [Ev.vdp (Cmd.setTextBgColour 0),
   Ev.vdp Cmd.clearScreen,
   Ev.vdp (Cmd.cursorEnable true)]

/-- `main`.  `file` is the content of `basictiles_merged.RGB2`, `keys` the
stream of keycodes returned by successive `vdp_getKeyCode()` polls.  Returns
the full emitted event sequence together with the exit status, or `none`
when the program does not terminate (insufficient fuel, or no ESC in the
keycode stream). -/
def mainRun (fuel : Nat) (file : Option (List Nat)) (keys : List Nat) :
    Option (List Ev × Nat) :=
  match load_tiles_from_file fuel file fname tileStartID cellWidth cellHeight cellRows cellColumns with
  | none => none
  | some loadEvs =>
      match waitForEsc keys with
      | none => none
      | some n =>
          some (setupEvents ++
                (loadEvs ++
                 ((display_tiles 5 8 tileStartID).map Ev.vdp ++
                  ((keys.take (n + 1)).map Ev.pollKey ++ teardownEvents))), 0)

/-- The event sequence of a run of `main`, defaulting to `[]` for
non-terminating runs. -/
def mainEvents (fuel : Nat) (file : Option (List Nat)) (keys : List Nat) : List Ev :=
  ((mainRun fuel file keys).map Prod.fst).getD []

/-! ## The display coprocessor, modelled from the spec

The VDP is an external collaborator ("Out of scope ... the display
coprocessor's internal rendering"); the spec describes the effect of the
buffer commands the program uses, and the model below follows those words. -/

/-- Modelled from the spec: the external coprocessor's
"split a buffer by width into multiple target buffers" command
("asks the coprocessor to slice that buffer into a row of fixed-width
sub-buffers").  The source data is cut into consecutive `width`-byte blocks,
distributed round-robin across `count` targets: target `c` receives, in
order, the blocks with index `c`, `c + count`, `c + 2·count`, ….  Block
index `srow * count + c` is therefore the `srow`-th block of target `c`. -/
def splitPart (data : List Nat) (width count c : Nat) : List Nat :=
  (List.range (data.length / width / count)).flatMap fun srow =>
    (data.drop ((srow * count + c) * width)).take width

/-- The first index `c` (starting the scan at `c0`, with `k` candidates left)
such that `(start + c) % 65536` is the 16-bit buffer ID `i`; used to decide
which split target, if any, a buffer ID denotes. -/
def splitTargetAux (start i : Nat) : Nat → Nat → Option Nat
  | 0, _ => none
  | k + 1, c => if (start + c) % 65536 = i then some c else splitTargetAux start i k (c + 1)

/-- The split target index (< `count`) owning buffer ID `i`, if any. -/
def splitTargetOf (count start i : Nat) : Option Nat :=
  splitTargetAux start i count 0

/-- The coprocessor-side state: the byte content of each 16-bit-addressed
buffer, the currently selected bitmap ID, the bitmap resources created so far
(width, height, pixel format, pixel data), and the list of issued plots
(bitmap ID, x, y) in order. -/
structure VdpState where
  buffers : Nat → List Nat
  selected : Nat
  bitmaps : Nat → Option (Nat × Nat × Nat × List Nat)
  plots : List (Nat × Nat × Nat)

/-- The coprocessor before the program runs: all buffers empty, no bitmap
resources, nothing plotted. -/
def initVdp : VdpState :=
  { buffers := fun _ => [], selected := 0, bitmaps := fun _ => none, plots := [] }

/-- Modelled from the spec: the effect of one coprocessor command on the
coprocessor state.  `clearBuffer` empties a buffer; `writeBlockData` appends
a block of bytes; `splitByWidthMultipleFrom` overwrites the `count` target
buffers with the round-robin split of the (snapshot of the) source buffer;
`selectBitmap` selects a bitmap ID; `bitmapFromBuffer` creates a bitmap
resource from the selected buffer's data; `plotBitmap` records a plot of the
selected bitmap.  Commands not touching the buffer/bitmap namespace (mode,
cursor, text, screen clear) leave the state unchanged. -/
def vdpStep (s : VdpState) : Cmd → VdpState
  | Cmd.clearBuffer b =>
      { s with buffers := fun i => if i = b % 65536 then [] else s.buffers i }
  | Cmd.writeBlockData b len data =>
      { s with buffers := fun i =>
          if i = b % 65536 then s.buffers i ++ data.take len else s.buffers i }
  | Cmd.splitByWidthMultipleFrom src width count start =>
      { s with buffers := fun i =>
          match splitTargetOf count start i with
          | some c => splitPart (s.buffers (src % 65536)) width count c
          | none => s.buffers i }
  | Cmd.selectBitmap b => { s with selected := b % 65536 }
  | Cmd.bitmapFromBuffer w h fmt =>
      { s with bitmaps := fun i =>
          if i = s.selected then some (w, h, fmt, s.buffers s.selected) else s.bitmaps i }
  | Cmd.plotBitmap x y => { s with plots := s.plots ++ [(s.selected, x, y)] }
  | _ => s

/-- The effect of one program event on the coprocessor: VDP commands step the
state, file operations and key polls do not reach the coprocessor. -/
def evStep (s : VdpState) : Ev → VdpState
  | Ev.vdp c => vdpStep s c
  | _ => s

/-- Run the coprocessor over an event sequence. -/
def runVdp : List Ev → VdpState → VdpState
  | [], s => s
  | e :: evs, s => runVdp evs (evStep s e)

/-! ## Spec-side descriptions (refinement targets) -/

/-- The pixel data of the source cell at row `r`, column `c` of the source
image, as the spec describes the image: a byte stream of `rowCount` strips,
each strip `ch` scanlines of `bc · cw` one-byte pixels, cell `(r, c)` being
the `cw`-byte segments at column offset `c · cw` of each scanline of strip
`r`. -/
def cellBytes (file : List Nat) (cw ch bc r c : Nat) : List Nat :=
  (List.range ch).flatMap fun srow =>
    (file.drop (r * (bc * cw * ch) + srow * (bc * cw) + c * cw)).take cw

/-- The bitmap-conversion phase of one loader row, as the spec describes it:
"for each of those `blockCount` sub-buffers select it and convert it in place
into a drawable bitmap using the configured pixel format and cell dimensions,
incrementing the running counter after each".  `k` conversions starting at
the (16-bit) running counter value `bid`. -/
def convertEvents (cw ch : Nat) : Nat → Nat → List Ev
  | 0, _ => []
  | k + 1, bid =>
      Ev.vdp (Cmd.selectBitmap (bid % 65536)) ::
      Ev.vdp (Cmd.bitmapFromBuffer cw ch RGBA2222_format) :: convertEvents cw ch k (bid + 1)

/-- The loader's row loop, as the spec describes it: for each of `k`
iterations, "clear a dedicated chunk-holding buffer, read exactly `chunkSize`
bytes from the file into a fixed-size local buffer, transfer those bytes into
the chunk-holding buffer, instruct the coprocessor to partition that buffer
into `blockCount` equal-width sub-buffers assigned IDs starting at the
current running bitmap counter", then convert the `blockCount` sub-buffers.
(The short-read behaviour — fewer than `chunkSize` bytes available — is kept
faithful to the code via `freadCount`/`freadBuf`.) -/
def loaderRowsEvents (file : Option (List Nat)) (cw ch bc : Nat) :
    Nat → Nat → List Nat → Nat → List Ev
  | 0, _, _, _ => []
  | k + 1, pos, buf, bid =>
      Ev.vdp (Cmd.clearBuffer chunkStoreID) ::
      Ev.readFile (freadCount file pos chunkSize) ::
      Ev.vdp (Cmd.writeBlockData chunkStoreID chunkSize (freadBuf file pos buf chunkSize)) ::
      Ev.vdp (Cmd.splitByWidthMultipleFrom chunkStoreID cw bc (bid % 65536)) ::
      (convertEvents cw ch bc bid ++
       loaderRowsEvents file cw ch bc k (pos + freadCount file pos chunkSize)
         (freadBuf file pos buf chunkSize) (bid + bc))

/-- The loader contract as the spec states it: "open file for binary read",
process the `rowCount` rows, "close the file after all rows processed". -/
def loaderSpecEvents (file : Option (List Nat)) (fileName : String)
    (s cw ch rc bc : Nat) : List Ev :=
  Ev.openFile fileName "r" ::
    loaderRowsEvents file cw ch bc rc 0 (List.replicate 2048 0) s ++ [Ev.closeFile]

/-- The renderer as the spec describes it: "nested iteration over rows then
columns; for each cell, select the current bitmap ID, issue a draw command at
screen position `(10 + column*20, 10 + row*20)`, then increment the ID
counter" — the running ID being the 16-bit counter value
`(startBufferID + r*columns + c) % 65536`. -/
def displaySpec (rows columns s : Nat) : List Cmd :=
  (List.range rows).flatMap fun r =>
    (List.range columns).flatMap fun c =>
      [Cmd.selectBitmap ((s + (r * columns + c)) % 65536),
       Cmd.plotBitmap (10 + c * 20) (10 + r * 20)]

/-- The grid of plots the spec's end-to-end scenario describes: bitmap
`s + r*columns + c` at screen position `(10 + 20·c, 10 + 20·r)`, row-major. -/
def gridPlots (rows columns s : Nat) : List (Nat × Nat × Nat) :=
  (List.range rows).flatMap fun r =>
    (List.range columns).flatMap fun c =>
      [(s + (r * columns + c), 10 + c * 20, 10 + r * 20)]

/-- The kind of an event: the event with its arguments erased (for
`readFile`, the byte count; for the VDP commands, the command's
arguments). -/
inductive EvKind where
  | kOpen | kRead | kClose | kPoll
  | kMode | kCursor | kBg | kClearScreen | kPixCoord | kTab | kPrint
  | kClearBuf | kWrite | kSplit | kSelect | kBitmap | kPlot
  deriving Repr, DecidableEq

/-- Erase an event to its kind. -/
def evKind : Ev → EvKind
  | Ev.openFile _ _ => EvKind.kOpen
  | Ev.readFile _ => EvKind.kRead
  | Ev.closeFile => EvKind.kClose
  | Ev.pollKey _ => EvKind.kPoll
  | Ev.vdp (Cmd.vdpMode _) => EvKind.kMode
  | Ev.vdp (Cmd.cursorEnable _) => EvKind.kCursor
  | Ev.vdp (Cmd.setTextBgColour _) => EvKind.kBg
  | Ev.vdp Cmd.clearScreen => EvKind.kClearScreen
  | Ev.vdp Cmd.setPixelCoordinates => EvKind.kPixCoord
  | Ev.vdp (Cmd.cursorTab _ _) => EvKind.kTab
  | Ev.vdp (Cmd.printText _) => EvKind.kPrint
  | Ev.vdp (Cmd.clearBuffer _) => EvKind.kClearBuf
  | Ev.vdp (Cmd.writeBlockData _ _ _) => EvKind.kWrite
  | Ev.vdp (Cmd.splitByWidthMultipleFrom _ _ _ _) => EvKind.kSplit
  | Ev.vdp (Cmd.selectBitmap _) => EvKind.kSelect
  | Ev.vdp (Cmd.bitmapFromBuffer _ _ _) => EvKind.kBitmap
  | Ev.vdp (Cmd.plotBitmap _ _) => EvKind.kPlot

/-- Is this event a plot command? -/
def isPlotEv : Ev → Bool
  | Ev.vdp (Cmd.plotBitmap _ _) => true
  | _ => false

/-- Is this event a bitmap-conversion command? -/
def isConvertEv : Ev → Bool
  | Ev.vdp (Cmd.bitmapFromBuffer _ _ _) => true
  | _ => false

/-! ## Closed forms for the loader loops -/

theorem innerLoop_eq (cw ch bc : Nat) (hbc : bc ≤ 255) :
    ∀ k fuel ctr bid, ctr + k = bc → k < fuel →
      innerLoop cw ch bc fuel ctr (bid % 65536) =
        some (convertEvents cw ch k bid, (bid + k) % 65536) := by
  intro k
  induction k with
  | zero =>
      intro fuel ctr bid hctr hfuel
      obtain ⟨f, rfl⟩ : ∃ f, fuel = f + 1 := ⟨fuel - 1, by omega⟩
      have h : ¬ ctr < bc := by omega
      simp [innerLoop, h, convertEvents]
  | succ k ih =>
      intro fuel ctr bid hctr hfuel
      obtain ⟨f, rfl⟩ : ∃ f, fuel = f + 1 := ⟨fuel - 1, by omega⟩
      have hlt : ctr < bc := by omega
      have h256 : (ctr + 1) % 256 = ctr + 1 := Nat.mod_eq_of_lt (by omega)
      have hmod : (bid % 65536 + 1) % 65536 = (bid + 1) % 65536 := Nat.mod_add_mod bid 65536 1
      have hrec := ih f (ctr + 1) (bid + 1) (by omega) (by omega)
      simp only [innerLoop, if_pos hlt, h256, hmod, hrec]
      have : bid + 1 + k = bid + (k + 1) := by omega
      simp [convertEvents, this]

theorem outerLoop_eq (file : Option (List Nat)) (cw ch rc bc : Nat)
    (hrc : rc ≤ 255) (hbc : bc ≤ 255) :
    ∀ k fuel ctr pos buf bid, ctr + k = rc → k + bc < fuel →
      outerLoop file cw ch rc bc fuel ctr pos buf (bid % 65536) =
        some (loaderRowsEvents file cw ch bc k pos buf bid) := by
  intro k
  induction k with
  | zero =>
      intro fuel ctr pos buf bid hctr hfuel
      obtain ⟨f, rfl⟩ : ∃ f, fuel = f + 1 := ⟨fuel - 1, by omega⟩
      have h : ¬ ctr < rc := by omega
      simp [outerLoop, h, loaderRowsEvents]
  | succ k ih =>
      intro fuel ctr pos buf bid hctr hfuel
      obtain ⟨f, rfl⟩ : ∃ f, fuel = f + 1 := ⟨fuel - 1, by omega⟩
      have hlt : ctr < rc := by omega
      have h256 : (ctr + 1) % 256 = ctr + 1 := Nat.mod_eq_of_lt (by omega)
      have hinner := innerLoop_eq cw ch bc hbc bc (f + 1) 0 bid (by omega) (by omega)
      have hrec := ih f (ctr + 1) (pos + freadCount file pos chunkSize)
        (freadBuf file pos buf chunkSize) (bid + bc) (by omega) (by omega)
      simp only [outerLoop, if_pos hlt, hinner, h256, hrec]
      simp [loaderRowsEvents]

theorem load_eq (file : Option (List Nat)) (fileName : String) (s cw ch rc bc fuel : Nat)
    (hrc : rc ≤ 255) (hbc : bc ≤ 255) (hs : s < 65536) (hfuel : rc + bc < fuel) :
    load_tiles_from_file fuel file fileName s cw ch rc bc =
      some (loaderSpecEvents file fileName s cw ch rc bc) := by
  have h := outerLoop_eq file cw ch rc bc hrc hbc rc fuel 0 0
    (List.replicate 2048 0) s (by omega) hfuel
  rw [Nat.mod_eq_of_lt hs] at h
  simp only [load_tiles_from_file, h, loaderSpecEvents]

theorem loadEvents_eq (file : Option (List Nat)) (fileName : String) (s cw ch rc bc fuel : Nat)
    (hrc : rc ≤ 255) (hbc : bc ≤ 255) (hs : s < 65536) (hfuel : rc + bc < fuel) :
    loadEvents fuel file fileName s cw ch rc bc =
      loaderSpecEvents file fileName s cw ch rc bc := by
  simp [loadEvents, load_eq file fileName s cw ch rc bc fuel hrc hbc hs hfuel]

/-! ## Divergence of the loader loops -/

theorem innerLoop_none (cw ch bc : Nat) (hbc : 256 ≤ bc) :
    ∀ fuel ctr bid, ctr < 256 → innerLoop cw ch bc fuel ctr bid = none := by
  intro fuel
  induction fuel with
  | zero => intro ctr bid h; simp [innerLoop]
  | succ f ih =>
      intro ctr bid hctr
      have hlt : ctr < bc := by omega
      simp [innerLoop, hlt, ih ((ctr + 1) % 256) ((bid + 1) % 65536) (Nat.mod_lt _ (by omega))]

theorem outerLoop_none_rc (file : Option (List Nat)) (cw ch rc bc : Nat) (hrc : 256 ≤ rc) :
    ∀ fuel ctr pos buf bid, ctr < 256 →
      outerLoop file cw ch rc bc fuel ctr pos buf bid = none := by
  intro fuel
  induction fuel with
  | zero => intro ctr pos buf bid h; simp [outerLoop]
  | succ f ih =>
      intro ctr pos buf bid hctr
      have hlt : ctr < rc := by omega
      simp only [outerLoop, if_pos hlt]
      cases hinner : innerLoop cw ch bc (f + 1) 0 bid with
      | none => simp
      | some p =>
          simp [ih ((ctr + 1) % 256) (pos + freadCount file pos chunkSize)
            (freadBuf file pos buf chunkSize) p.2 (Nat.mod_lt _ (by omega))]

theorem outerLoop_none_bc (file : Option (List Nat)) (cw ch rc bc : Nat)
    (hrc : 1 ≤ rc) (hbc : 256 ≤ bc) :
    ∀ fuel pos buf bid, outerLoop file cw ch rc bc fuel 0 pos buf bid = none := by
  intro fuel pos buf bid
  cases fuel with
  | zero => simp [outerLoop]
  | succ f =>
      have hlt : 0 < rc := by omega
      simp [outerLoop, hlt, innerLoop_none cw ch bc hbc (f + 1) 0 bid (by omega)]

theorem load_none (file : Option (List Nat)) (fileName : String) (s cw ch rc bc : Nat)
    (h : 256 ≤ rc ∨ (1 ≤ rc ∧ 256 ≤ bc)) :
    ∀ fuel, load_tiles_from_file fuel file fileName s cw ch rc bc = none := by
  intro fuel
  rcases h with h | ⟨h1, h2⟩
  · simp only [load_tiles_from_file,
      outerLoop_none_rc file cw ch rc bc h fuel 0 0 (List.replicate 2048 0) s (by omega)]
  · simp only [load_tiles_from_file,
      outerLoop_none_bc file cw ch rc bc h1 h2 fuel 0 (List.replicate 2048 0) s]

theorem outerLoop_done (file : Option (List Nat)) (cw ch rc bc fuel ctr pos : Nat)
    (buf : List Nat) (bid : Nat) (hctr : ¬ ctr < rc) :
    outerLoop file cw ch rc bc (fuel + 1) ctr pos buf bid = some [] := by
  simp [outerLoop, hctr]

/-- Termination of `load_tiles_from_file` holds exactly when the `uint8_t`
outer counter can reach `rowCount` and, unless the outer loop body never
runs, the `uint8_t` inner counter can reach `blockCount`. -/
theorem loadTerminates_iff (file : Option (List Nat)) (fileName : String)
    (s cw ch rc bc : Nat) (hs : s < 65536) :
    LoadTerminates file fileName s cw ch rc bc ↔ (rc ≤ 255 ∧ (rc = 0 ∨ bc ≤ 255)) := by
  constructor
  · rintro ⟨fuel, hsome⟩
    by_contra hne
    have h : 256 ≤ rc ∨ (1 ≤ rc ∧ 256 ≤ bc) := by omega
    rw [load_none file fileName s cw ch rc bc h fuel] at hsome
    simp at hsome
  · rintro ⟨h1, h2⟩
    rcases h2 with h0 | hbc
    · subst h0
      refine ⟨1, ?_⟩
      have h := outerLoop_done file cw ch 0 bc 0 0 0 (List.replicate 2048 0) s (by omega)
      simp only [Nat.zero_add] at h
      simp only [load_tiles_from_file, h]
      rfl
    · exact ⟨rc + bc + 1,
        by rw [load_eq file fileName s cw ch rc bc _ h1 hbc hs (by omega)]; rfl⟩

/-! ## The split-target lookup under non-wrapping IDs -/

theorem splitTargetAux_eq (start i : Nat) :
    ∀ k c, start + c + k ≤ 65536 →
      splitTargetAux start i k c =
        if start + c ≤ i ∧ i < start + c + k then some (i - start) else none := by
  intro k
  induction k with
  | zero =>
      intro c h
      simp only [splitTargetAux]
      rw [if_neg (by omega)]
  | succ k ih =>
      intro c h
      have hmod : (start + c) % 65536 = start + c := Nat.mod_eq_of_lt (by omega)
      simp only [splitTargetAux, hmod]
      by_cases hc : start + c = i
      · rw [if_pos hc, if_pos (by omega)]
        congr 1
        omega
      · rw [if_neg hc, ih (c + 1) (by omega)]
        by_cases hi : start + c ≤ i ∧ i < start + c + (k + 1)
        · rw [if_pos (by omega), if_pos hi]
        · rw [if_neg (by omega), if_neg hi]

theorem splitTargetOf_eq (count start i : Nat) (h : start + count ≤ 65536) :
    splitTargetOf count start i =
      if start ≤ i ∧ i < start + count then some (i - start) else none := by
  have := splitTargetAux_eq start i count 0 (by omega)
  simpa [splitTargetOf] using this

/-! ## Interpreting the emitted commands on the coprocessor model -/

theorem runVdp_append (l1 l2 : List Ev) (s : VdpState) :
    runVdp (l1 ++ l2) s = runVdp l2 (runVdp l1 s) := by
  induction l1 generalizing s with
  | nil => rfl
  | cons e l ih => simp [runVdp, ih]

/-- Effect of the select-and-convert phase: for non-wrapping IDs, the `k`
bitmaps `bid … bid + k - 1` are created from the same-numbered buffers;
buffers and plots are untouched. -/
theorem runVdp_convert (cw ch : Nat) :
    ∀ k bid S, bid + k ≤ 65536 →
      (runVdp (convertEvents cw ch k bid) S).buffers = S.buffers ∧
      (runVdp (convertEvents cw ch k bid) S).plots = S.plots ∧
      ∀ i, (runVdp (convertEvents cw ch k bid) S).bitmaps i =
        if bid ≤ i ∧ i < bid + k then some (cw, ch, RGBA2222_format, S.buffers i)
        else S.bitmaps i := by
  intro k
  induction k with
  | zero =>
      intro bid S h
      refine ⟨rfl, rfl, fun i => ?_⟩
      rw [if_neg (by omega)]
      rfl
  | succ k ih =>
      intro bid S h
      have hb : bid % 65536 = bid := Nat.mod_eq_of_lt (by omega)
      have hstep : runVdp (convertEvents cw ch (k + 1) bid) S =
          runVdp (convertEvents cw ch k (bid + 1))
            (evStep (evStep S (Ev.vdp (Cmd.selectBitmap (bid % 65536))))
              (Ev.vdp (Cmd.bitmapFromBuffer cw ch RGBA2222_format))) := rfl
      set S2 := evStep (evStep S (Ev.vdp (Cmd.selectBitmap (bid % 65536))))
        (Ev.vdp (Cmd.bitmapFromBuffer cw ch RGBA2222_format)) with hS2
      obtain ⟨ihb, ihp, ihm⟩ := ih (bid + 1) S2 (by omega)
      have hS2buf : S2.buffers = S.buffers := rfl
      have hS2plots : S2.plots = S.plots := rfl
      have hS2bm : ∀ i, S2.bitmaps i =
          if i = bid then some (cw, ch, RGBA2222_format, S.buffers bid) else S.bitmaps i := by
        intro i
        simp only [hS2, evStep, vdpStep, hb]
      refine ⟨?_, ?_, ?_⟩
      · rw [hstep, ihb, hS2buf]
      · rw [hstep, ihp, hS2plots]
      · intro i
        rw [hstep, ihm i, hS2bm i, hS2buf]
        by_cases h1 : bid + 1 ≤ i ∧ i < bid + 1 + k
        · rw [if_pos h1, if_pos (by omega)]
        · rw [if_neg h1]
          by_cases h2 : i = bid
          · subst h2
            rw [if_pos (show i ≤ i ∧ i < i + (k + 1) from by omega)]
            simp
          · rw [if_neg h2, if_neg (by omega)]

/-- Effect of one row's buffer-preparation phase (clear the chunk buffer,
read, write the chunk, split): the split targets `bid … bid + bc - 1` hold
the round-robin parts of the chunk, bitmaps and plots are untouched. -/
theorem rowHeaderState (cw bc : Nat) (S S3 : VdpState) (d : List Nat) (n bid : Nat)
    (hbid : bid + bc ≤ 65536)
    (hS3 : S3 = evStep (evStep (evStep (evStep S (Ev.vdp (Cmd.clearBuffer chunkStoreID)))
      (Ev.readFile n)) (Ev.vdp (Cmd.writeBlockData chunkStoreID chunkSize d)))
      (Ev.vdp (Cmd.splitByWidthMultipleFrom chunkStoreID cw bc bid))) :
    (∀ i, bid ≤ i → i < bid + bc → S3.buffers i = splitPart (d.take chunkSize) cw bc (i - bid)) ∧
    S3.bitmaps = S.bitmaps ∧ S3.plots = S.plots := by
  subst hS3
  refine ⟨?_, rfl, rfl⟩
  intro i hi1 hi2
  have hb : bid % 65536 = bid := Nat.mod_eq_of_lt (by omega)
  simp only [evStep, vdpStep, hb]
  rw [splitTargetOf_eq bc bid i hbid, if_pos ⟨hi1, hi2⟩]
  simp

/-- Effect of the loader's row loop on the coprocessor, for a file holding at
least `k` full chunks from position `pos` on: bitmap `bid + m` (for
`m < k·bc`) is created from the `(m % bc)`-th round-robin part of chunk
`m / bc`; plots are untouched. -/
theorem runVdp_rows (bytes : List Nat) (cw ch bc : Nat) (hbc : 0 < bc) :
    ∀ k pos buf bid S, bid + k * bc ≤ 65536 → pos + k * chunkSize ≤ bytes.length →
      buf.length = chunkSize →
      (runVdp (loaderRowsEvents (some bytes) cw ch bc k pos buf bid) S).plots = S.plots ∧
      ∀ i, (runVdp (loaderRowsEvents (some bytes) cw ch bc k pos buf bid) S).bitmaps i =
        if bid ≤ i ∧ i < bid + k * bc then
          some (cw, ch, RGBA2222_format,
            splitPart ((bytes.drop (pos + ((i - bid) / bc) * chunkSize)).take chunkSize)
              cw bc ((i - bid) % bc))
        else S.bitmaps i := by
  intro k
  induction k with
  | zero =>
      intro pos buf bid S h1 h2 h3
      exact ⟨rfl, fun i => by rw [if_neg (by omega)]; rfl⟩
  | succ k ih =>
      intro pos buf bid S h1 h2 h3
      have hmul : (k + 1) * bc = k * bc + bc := Nat.succ_mul k bc
      have hmulc : (k + 1) * chunkSize = k * chunkSize + chunkSize := Nat.succ_mul k chunkSize
      have hb : bid % 65536 = bid := Nat.mod_eq_of_lt (by omega)
      have hn : freadCount (some bytes) pos chunkSize = chunkSize := by
        simp only [freadCount]
        omega
      have hdrop : buf.drop chunkSize = [] := List.drop_eq_nil_of_le (le_of_eq h3)
      have hchunk : freadBuf (some bytes) pos buf chunkSize = (bytes.drop pos).take chunkSize := by
        simp only [freadBuf]
        rw [show min chunkSize (bytes.length - pos) = chunkSize from by omega, hdrop,
          List.append_nil]
      have hdlen : ((bytes.drop pos).take chunkSize).length = chunkSize := by
        simp only [List.length_take, List.length_drop]
        omega
      have hev : loaderRowsEvents (some bytes) cw ch bc (k + 1) pos buf bid =
          Ev.vdp (Cmd.clearBuffer chunkStoreID) :: Ev.readFile chunkSize ::
          Ev.vdp (Cmd.writeBlockData chunkStoreID chunkSize ((bytes.drop pos).take chunkSize)) ::
          Ev.vdp (Cmd.splitByWidthMultipleFrom chunkStoreID cw bc bid) ::
          (convertEvents cw ch bc bid ++
            loaderRowsEvents (some bytes) cw ch bc k (pos + chunkSize)
              ((bytes.drop pos).take chunkSize) (bid + bc)) := by
        simp only [loaderRowsEvents, hn, hchunk, hb]
      set d := (bytes.drop pos).take chunkSize with hd
      set S3 := evStep (evStep (evStep (evStep S (Ev.vdp (Cmd.clearBuffer chunkStoreID)))
        (Ev.readFile chunkSize)) (Ev.vdp (Cmd.writeBlockData chunkStoreID chunkSize d)))
        (Ev.vdp (Cmd.splitByWidthMultipleFrom chunkStoreID cw bc bid)) with hS3
      obtain ⟨hosb, hosm, hosp⟩ := rowHeaderState cw bc S S3 d chunkSize bid (by omega) hS3
      have hdtake : d.take chunkSize = d := List.take_of_length_le (le_of_eq hdlen)
      have hstep : runVdp (loaderRowsEvents (some bytes) cw ch bc (k + 1) pos buf bid) S =
          runVdp (loaderRowsEvents (some bytes) cw ch bc k (pos + chunkSize) d (bid + bc))
            (runVdp (convertEvents cw ch bc bid) S3) := by
        rw [hev]
        show runVdp (convertEvents cw ch bc bid ++
          loaderRowsEvents (some bytes) cw ch bc k (pos + chunkSize) d (bid + bc)) S3 = _
        rw [runVdp_append]
      obtain ⟨hcbuf, hcplots, hcbm⟩ := runVdp_convert cw ch bc bid S3 (by omega)
      obtain ⟨ihp, ihm⟩ := ih (pos + chunkSize) d (bid + bc)
        (runVdp (convertEvents cw ch bc bid) S3) (by omega) (by omega) hdlen
      constructor
      · rw [hstep, ihp, hcplots, hosp]
      · intro i
        rw [hstep, ihm i]
        by_cases hA : bid ≤ i ∧ i < bid + bc
        · have hc1 : ¬ (bid + bc ≤ i ∧ i < bid + bc + k * bc) := by omega
          have hc2 : bid ≤ i ∧ i < bid + (k + 1) * bc := by omega
          rw [if_neg hc1, if_pos hc2, hcbm i, if_pos hA, hosb i hA.1 hA.2, hdtake]
          have hdiv : (i - bid) / bc = 0 := Nat.div_eq_of_lt (by omega)
          have hmod2 : (i - bid) % bc = i - bid := Nat.mod_eq_of_lt (by omega)
          rw [hdiv, hmod2]
          simp only [Nat.zero_mul, Nat.add_zero, ← hd]
        · by_cases hB : bid ≤ i ∧ i < bid + (k + 1) * bc
          · have hc1 : bid + bc ≤ i ∧ i < bid + bc + k * bc := by omega
            rw [if_pos hc1, if_pos hB]
            obtain ⟨m, hm⟩ : ∃ m, i - bid = m + bc := ⟨i - bid - bc, by omega⟩
            have h2 : i - (bid + bc) = m := by omega
            rw [h2, hm, Nat.add_div_right m hbc, Nat.add_mod_right]
            have hpos2 : pos + chunkSize + m / bc * chunkSize = pos + (m / bc + 1) * chunkSize := by
              have h3 : (m / bc + 1) * chunkSize = m / bc * chunkSize + chunkSize :=
                Nat.succ_mul _ _
              omega
            rw [hpos2]
          · have hc1 : ¬ (bid + bc ≤ i ∧ i < bid + bc + k * bc) := by omega
            rw [if_neg hc1, if_neg hB, hcbm i, if_neg hA]
            exact congrFun hosm i

theorem flatMap_congr {α β : Type} {l : List α} {f g : α → List β}
    (h : ∀ x ∈ l, f x = g x) : l.flatMap f = l.flatMap g := by
  induction l with
  | nil => rfl
  | cons a l ih =>
      rw [List.flatMap_cons, List.flatMap_cons, h a (List.mem_cons_self a l),
        ih fun x hx => h x (List.mem_cons_of_mem a hx)]

/-- When the cell dimensions tile the chunk exactly
(`bc · cw · ch = chunkSize`), the `c`-th round-robin part of chunk `r` is
precisely the pixel data of source cell `(r, c)`. -/
theorem splitPart_eq_cellBytes (bytes : List Nat) (cw ch bc r c : Nat)
    (hdim : bc * cw * ch = chunkSize) (hcw : 0 < cw) (hc : c < bc)
    (hlen : r * chunkSize + chunkSize ≤ bytes.length) :
    splitPart ((bytes.drop (r * chunkSize)).take chunkSize) cw bc c =
      cellBytes bytes cw ch bc r c := by
  have hbc : 0 < bc := by
    rcases Nat.eq_zero_or_pos bc with h | h
    · subst h; simp [chunkSize] at hdim
    · exact h
  have hdlen : ((bytes.drop (r * chunkSize)).take chunkSize).length = chunkSize := by
    simp only [List.length_take, List.length_drop]
    omega
  have hrange : ((bytes.drop (r * chunkSize)).take chunkSize).length / cw / bc = ch := by
    rw [hdlen, ← hdim, show bc * cw * ch = bc * ch * cw from by ring,
      Nat.mul_div_cancel _ hcw, Nat.mul_comm bc ch, Nat.mul_div_cancel _ hbc]
  rw [splitPart, hrange, cellBytes]
  refine flatMap_congr fun srow hsrow => ?_
  rw [List.mem_range] at hsrow
  have hbound : (srow * bc + c) * cw + cw ≤ chunkSize := by
    have h1 : srow * bc + c + 1 ≤ ch * bc := by
      calc srow * bc + c + 1 ≤ srow * bc + bc := by omega
        _ = (srow + 1) * bc := (Nat.succ_mul srow bc).symm
        _ ≤ ch * bc := Nat.mul_le_mul_right bc hsrow
    calc (srow * bc + c) * cw + cw = (srow * bc + c + 1) * cw := (Nat.succ_mul _ _).symm
      _ ≤ ch * bc * cw := Nat.mul_le_mul_right cw h1
      _ = bc * cw * ch := by ring
      _ = chunkSize := hdim
  rw [List.drop_take, List.drop_drop, List.take_take, Nat.min_eq_left (by omega)]
  congr 2
  rw [← hdim]
  ring

/-- Interpretation of a full (successful) loader run on the coprocessor
model, starting from the pristine state. -/
theorem runVdp_load (bytes : List Nat) (fileName : String) (s cw ch rc bc fuel : Nat)
    (hrc : rc ≤ 255) (hbc : bc ≤ 255) (hbc0 : 0 < bc)
    (hwrap : s + rc * bc ≤ 65536) (hs : s < 65536)
    (hlen : rc * chunkSize ≤ bytes.length) (hfuel : rc + bc < fuel) :
    (runVdp (loadEvents fuel (some bytes) fileName s cw ch rc bc) initVdp).plots = [] ∧
    ∀ i, (runVdp (loadEvents fuel (some bytes) fileName s cw ch rc bc) initVdp).bitmaps i =
      if s ≤ i ∧ i < s + rc * bc then
        some (cw, ch, RGBA2222_format,
          splitPart ((bytes.drop (((i - s) / bc) * chunkSize)).take chunkSize)
            cw bc ((i - s) % bc))
      else none := by
  rw [loadEvents_eq (some bytes) fileName s cw ch rc bc fuel hrc hbc hs hfuel]
  have hcomp : runVdp (loaderSpecEvents (some bytes) fileName s cw ch rc bc) initVdp =
      runVdp (loaderRowsEvents (some bytes) cw ch bc rc 0 (List.replicate 2048 0) s) initVdp := by
    show runVdp (loaderRowsEvents (some bytes) cw ch bc rc 0 (List.replicate 2048 0) s ++
      [Ev.closeFile]) initVdp = _
    rw [runVdp_append]
    rfl
  have hbuflen : (List.replicate 2048 (0 : Nat)).length = chunkSize := by
    rw [List.length_replicate]
    rfl
  obtain ⟨hp, hm⟩ := runVdp_rows bytes cw ch bc hbc0 rc 0 (List.replicate 2048 0) s initVdp
    hwrap (by omega) hbuflen
  refine ⟨by rw [hcomp, hp]; rfl, fun i => ?_⟩
  rw [hcomp, hm i]
  by_cases h : s ≤ i ∧ i < s + rc * bc
  · rw [if_pos h, if_pos h]
    simp only [Nat.zero_add]
  · rw [if_neg h, if_neg h]
    rfl

/-- **C1** (amended).  For a call of the Tile Loader whose counts fit the
8-bit loop counters (`rowCount, blockCount ≤ 255`), whose assigned IDs do not
wrap the 16-bit ID counter (`startBitmapID + rowCount·blockCount ≤ 65536`),
whose cell dimensions tile the fixed chunk
(`blockCount·cellWidth·cellHeight = chunkSize`), and whose file holds at
least `rowCount × chunkSize` bytes, the loader populates exactly
`rowCount × blockCount` bitmap resources with sequential contiguous IDs
starting at `startBitmapID`, in row-major order: the bitmap with ID
`startBitmapID + r·blockCount + c` receives the pixel data of the source
cell at row `r`, column `c`. -/
theorem C1_tile_loader_row_major (bytes : List Nat) (fileName : String)
    (s cw ch rc bc fuel : Nat)
    (hrc : rc ≤ 255) (hbc : bc ≤ 255)
    (hwrap : s + rc * bc ≤ 65536) (hs : s < 65536)
    (hdim : bc * cw * ch = chunkSize)
    (hlen : rc * chunkSize ≤ bytes.length)
    (hfuel : rc + bc < fuel) :
    (∀ i, ((runVdp (loadEvents fuel (some bytes) fileName s cw ch rc bc) initVdp).bitmaps
        i).isSome ↔ (s ≤ i ∧ i < s + rc * bc)) ∧
    ∀ r c, r < rc → c < bc →
      (runVdp (loadEvents fuel (some bytes) fileName s cw ch rc bc) initVdp).bitmaps
          (s + (r * bc + c)) =
        some (cw, ch, RGBA2222_format, cellBytes bytes cw ch bc r c) := by
  have hbc0 : 0 < bc := by
    rcases Nat.eq_zero_or_pos bc with h | h
    · subst h
      rw [Nat.zero_mul, Nat.zero_mul] at hdim
      exact absurd hdim (by decide)
    · exact h
  have hcw : 0 < cw := by
    rcases Nat.eq_zero_or_pos cw with h | h
    · subst h
      rw [Nat.mul_zero, Nat.zero_mul] at hdim
      exact absurd hdim (by decide)
    · exact h
  obtain ⟨hp, hm⟩ := runVdp_load bytes fileName s cw ch rc bc fuel hrc hbc hbc0 hwrap hs
    hlen hfuel
  constructor
  · intro i
    rw [hm i]
    by_cases h : s ≤ i ∧ i < s + rc * bc
    · rw [if_pos h]; simpa using h
    · rw [if_neg h]; simpa using h
  · intro r c hr hc
    have hcell : r * bc + c < rc * bc := by
      calc r * bc + c < r * bc + bc := by omega
        _ = (r + 1) * bc := (Nat.succ_mul r bc).symm
        _ ≤ rc * bc := Nat.mul_le_mul_right bc hr
    rw [hm (s + (r * bc + c)), if_pos (by omega)]
    have hsub : s + (r * bc + c) - s = r * bc + c := by omega
    have hdivr : (r * bc + c) / bc = r := by
      rw [Nat.mul_comm r bc, Nat.mul_add_div hbc0, Nat.div_eq_of_lt hc, Nat.add_zero]
    have hmodc : (r * bc + c) % bc = c := by
      rw [Nat.mul_comm r bc, Nat.mul_add_mod, Nat.mod_eq_of_lt hc]
    rw [hsub, hdivr, hmodc]
    rw [splitPart_eq_cellBytes bytes cw ch bc r c hdim hcw hc]
    have h1 : (r + 1) * chunkSize ≤ rc * chunkSize := Nat.mul_le_mul_right chunkSize hr
    have h2 : (r + 1) * chunkSize = r * chunkSize + chunkSize := Nat.succ_mul r chunkSize
    omega

/-- Witness for C1 at the program's own constants: 5 rows, 8 columns of
16×16 cells, start ID 0, a 10240-byte file. -/
theorem C1_tile_loader_row_major_witness :
    (5 ≤ 255 ∧ 8 ≤ 255 ∧ 0 + 5 * 8 ≤ 65536 ∧ 0 < 65536 ∧ 8 * 16 * 16 = chunkSize ∧
      5 * chunkSize ≤ (List.replicate 10240 (0 : Nat)).length ∧ 5 + 8 < 14) ∧
    ((∀ i, ((runVdp (loadEvents 14 (some (List.replicate 10240 0)) fname 0 16 16 5 8)
        initVdp).bitmaps i).isSome ↔ (0 ≤ i ∧ i < 0 + 5 * 8)) ∧
      ∀ r c, r < 5 → c < 8 →
        (runVdp (loadEvents 14 (some (List.replicate 10240 0)) fname 0 16 16 5 8)
            initVdp).bitmaps (0 + (r * 8 + c)) =
          some (16, 16, RGBA2222_format, cellBytes (List.replicate 10240 0) 16 16 8 r c)) :=
  ⟨⟨by decide, by decide, by decide, by decide, by decide,
    by rw [List.length_replicate]; decide, by decide⟩,
   C1_tile_loader_row_major (List.replicate 10240 0) fname 0 16 16 5 8 14 (by decide)
     (by decide) (by decide) (by decide) (by decide)
     (by rw [List.length_replicate]; decide) (by decide)⟩

/-- Counterexample to C1 as stated: with `startBitmapID = 65535` (a legal
`uint16_t` value), one row and eight columns, the 16-bit running ID counter
wraps, and the bitmap with ID `65535 + (0·8 + 1) = 65536` does not receive
the pixel data of source cell `(0, 1)` — no bitmap with that ID exists at
all. -/
theorem C1_cex_id_wrap :
    (runVdp (loadEvents 10 (some (List.replicate 2048 0)) fname 65535 16 16 1 8)
        initVdp).bitmaps (65535 + (0 * 8 + 1)) ≠
      some (16, 16, RGBA2222_format, cellBytes (List.replicate 2048 0) 16 16 8 0 1) := by
  have h : (runVdp (loadEvents 10 (some (List.replicate 2048 0)) fname 65535 16 16 1 8)
      initVdp).bitmaps (65535 + (0 * 8 + 1)) = none := by rfl
  rw [h]
  exact fun hcon => Option.noConfusion hcon

/-- Is this command a plot command? -/
def isPlotCmd : Cmd → Bool
  | Cmd.plotBitmap _ _ => true
  | _ => false

theorem displayRowCmds_eq (r : Nat) :
    ∀ k c bid, displayRowCmds r k c (bid % 65536) =
      ((List.range k).flatMap fun j =>
        [Cmd.selectBitmap ((bid + j) % 65536),
         Cmd.plotBitmap (10 + (c + j) * 20) (10 + r * 20)],
       (bid + k) % 65536) := by
  intro k
  induction k with
  | zero => intro c bid; simp [displayRowCmds]
  | succ k ih =>
      intro c bid
      have h1 : (bid % 65536 + 1) % 65536 = (bid + 1) % 65536 := Nat.mod_add_mod bid 65536 1
      simp only [displayRowCmds, h1, ih (c + 1) (bid + 1)]
      rw [List.range_succ_eq_map, List.flatMap_cons, List.flatMap_map]
      simp only [Prod.mk.injEq]
      refine ⟨?_, ?_⟩
      · simp only [Nat.add_zero, List.cons_append, List.nil_append]
        refine congrArg₂ _ rfl (congrArg₂ _ rfl ?_)
        refine flatMap_congr fun j hj => ?_
        have e1 : bid + 1 + j = bid + (j + 1) := by omega
        have e2 : c + 1 + j = c + (j + 1) := by omega
        rw [e1, e2]
      · congr 1
        omega

theorem displayGridCmds_eq (columns : Nat) :
    ∀ k r bid, displayGridCmds columns k r (bid % 65536) =
      (List.range k).flatMap fun rr =>
        (List.range columns).flatMap fun j =>
          [Cmd.selectBitmap ((bid + (rr * columns + j)) % 65536),
           Cmd.plotBitmap (10 + j * 20) (10 + (r + rr) * 20)] := by
  intro k
  induction k with
  | zero => intro r bid; simp [displayGridCmds]
  | succ k ih =>
      intro r bid
      have hrow := displayRowCmds_eq r columns 0 bid
      have hrec := ih (r + 1) (bid + columns)
      simp only [displayGridCmds, hrow, hrec]
      rw [List.range_succ_eq_map, List.flatMap_cons, List.flatMap_map]
      refine congrArg₂ _ ?_ ?_
      · refine flatMap_congr fun j hj => ?_
        have e1 : bid + j = bid + (0 * columns + j) := by
          rw [Nat.zero_mul, Nat.zero_add]
        have e2 : (0 : Nat) + j = j := Nat.zero_add j
        rw [e2, ← e1, Nat.add_zero]
      · refine flatMap_congr fun rr hrr => flatMap_congr fun j hj => ?_
        have e1 : bid + columns + (rr * columns + j) = bid + ((rr + 1) * columns + j) := by
          ring
        have e2 : r + 1 + rr = r + (rr + 1) := by omega
        rw [e1, e2]

/-- The renderer's commands coincide with the spec-side description for any
`uint16_t` starting ID. -/
theorem display_tiles_spec (rows columns s : Nat) (hs : s < 65536) :
    display_tiles rows columns s = displaySpec rows columns s := by
  have h := displayGridCmds_eq columns rows 0 s
  rw [Nat.mod_eq_of_lt hs] at h
  show displayGridCmds columns rows 0 s = _
  rw [h]
  simp only [displaySpec]
  refine flatMap_congr fun rr hrr => flatMap_congr fun j hj => ?_
  rw [Nat.zero_add]

theorem countP_flatMap_const (p : Cmd → Bool) (f : Nat → List Cmd) (m : Nat)
    (hf : ∀ c, (f c).countP p = m) :
    ∀ n, ((List.range n).flatMap f).countP p = n * m := by
  intro n
  induction n with
  | zero => simp
  | succ n ih =>
      rw [List.range_succ, List.flatMap_append, List.countP_append, ih]
      simp only [List.flatMap_cons, List.flatMap_nil, List.append_nil]
      rw [hf n, Nat.succ_mul]

theorem countP_displaySpec (rows columns s : Nat) :
    (displaySpec rows columns s).countP isPlotCmd = rows * columns := by
  simp only [displaySpec]
  have hcell : ∀ rr c : Nat, ([Cmd.selectBitmap ((s + (rr * columns + c)) % 65536),
      Cmd.plotBitmap (10 + c * 20) (10 + rr * 20)].countP isPlotCmd) = 1 := by
    intro rr c
    simp [isPlotCmd, List.countP_cons, List.countP_nil]
  have hrow : ∀ rr : Nat, (((List.range columns).flatMap fun c =>
      [Cmd.selectBitmap ((s + (rr * columns + c)) % 65536),
       Cmd.plotBitmap (10 + c * 20) (10 + rr * 20)]).countP isPlotCmd) = columns := by
    intro rr
    rw [countP_flatMap_const isPlotCmd _ 1 (hcell rr) columns, Nat.mul_one]
  rw [countP_flatMap_const isPlotCmd _ columns hrow rows]

/-- **C2** (amended).  For every `rows`, `columns` and `uint16_t`
`startBufferID`, the Grid Renderer issues exactly `rows × columns` plot
commands by nested iteration over rows then columns, visiting bitmap IDs in
row-major order — the running 16-bit ID for cell `(r, c)` being
`(startBufferID + r·columns + c) mod 65536`, incrementing by one per cell —
and plotting each at screen position `(10 + 20·column, 10 + 20·row)`. -/
theorem C2_grid_renderer (rows columns s : Nat) (hs : s < 65536) :
    display_tiles rows columns s = displaySpec rows columns s ∧
    (display_tiles rows columns s).countP isPlotCmd = rows * columns := by
  have h := display_tiles_spec rows columns s hs
  exact ⟨h, by rw [h, countP_displaySpec]⟩

/-- Witness for C2 at the program's own call `display_tiles(5, 8, 0)`. -/
theorem C2_grid_renderer_witness :
    0 < 65536 ∧ (display_tiles 5 8 0 = displaySpec 5 8 0 ∧
      (display_tiles 5 8 0).countP isPlotCmd = 5 * 8) :=
  ⟨by decide, C2_grid_renderer 5 8 0 (by decide)⟩

/-- Counterexample to C2 as stated: with `startBufferID = 65535` (a legal
`uint16_t` value), 1 row and 2 columns, the renderer never selects bitmap ID
`65535 + (0·2 + 1) = 65536`; the running `uint16_t` counter wraps and it
selects bitmap 0 instead. -/
theorem C2_cex_id_wrap :
    Cmd.selectBitmap (65535 + (0 * 2 + 1)) ∉ display_tiles 1 2 65535 ∧
    Cmd.selectBitmap 0 ∈ display_tiles 1 2 65535 := by decide

/-- **C8** (amended).  For every file state and `uint16_t` arguments,
`load_tiles_from_file` terminates if and only if `rowCount ≤ 255` and, unless
`rowCount = 0` (in which case the inner loop never starts), also
`blockCount ≤ 255`: the `uint8_t` loop counters wrap at 256 and can never
reach a bound of 256 or more. -/
theorem C8_loader_termination (file : Option (List Nat)) (fileName : String)
    (s cw ch rc bc : Nat) (hs : s < 65536) :
    LoadTerminates file fileName s cw ch rc bc ↔ (rc ≤ 255 ∧ (rc = 0 ∨ bc ≤ 255)) :=
  loadTerminates_iff file fileName s cw ch rc bc hs

/-- Witness for C8 at the program's own arguments. -/
theorem C8_loader_termination_witness :
    0 < 65536 ∧ (LoadTerminates none fname 0 16 16 5 8 ↔ (5 ≤ 255 ∧ (5 = 0 ∨ 8 ≤ 255))) :=
  ⟨by decide, C8_loader_termination none fname 0 16 16 5 8 (by decide)⟩

/-- Counterexample to C8 as stated: with `rowCount = 0` and
`blockCount = 256`, the loader terminates (the outer loop body never runs,
so the inner counter never wraps) even though `blockCount > 255`, refuting
the claimed "if and only if rowCount ≤ 255 and blockCount ≤ 255". -/
theorem C8_cex_zero_rows :
    ¬ (LoadTerminates none fname 0 16 16 0 256 ↔ (0 ≤ 255 ∧ 256 ≤ 255)) := by
  intro h
  have hterm : LoadTerminates none fname 0 16 16 0 256 := ⟨1, by decide⟩
  have h2 := h.mp hterm
  omega

/-! ## Shapes of the events the loader emits -/

theorem mem_convertEvents (cw ch : Nat) :
    ∀ k bid e, e ∈ convertEvents cw ch k bid →
      (∃ j, j < k ∧ e = Ev.vdp (Cmd.selectBitmap ((bid + j) % 65536))) ∨
      e = Ev.vdp (Cmd.bitmapFromBuffer cw ch RGBA2222_format) := by
  intro k
  induction k with
  | zero => intro bid e h; simp [convertEvents] at h
  | succ k ih =>
      intro bid e h
      simp only [convertEvents, List.mem_cons] at h
      rcases h with h | h | h
      · exact Or.inl ⟨0, by omega, by rw [h, Nat.add_zero]⟩
      · exact Or.inr h
      · rcases ih (bid + 1) e h with ⟨j, hj, he⟩ | he
        · refine Or.inl ⟨j + 1, by omega, ?_⟩
          rw [he]
          have : bid + 1 + j = bid + (j + 1) := by omega
          rw [this]
        · exact Or.inr he

theorem readFile_not_mem_convertEvents (cw ch : Nat) :
    ∀ k bid n, Ev.readFile n ∉ convertEvents cw ch k bid := by
  intro k
  induction k with
  | zero => intro bid n h; simp [convertEvents] at h
  | succ k ih =>
      intro bid n h
      simp only [convertEvents, List.mem_cons] at h
      rcases h with h | h | h
      · exact Ev.noConfusion h
      · exact Ev.noConfusion h
      · exact ih (bid + 1) n h

/-- Every event of the loader's row loop is one of: a clear of the chunk
buffer, a read of at most `chunkSize` bytes, a write of `chunkSize` bytes to
the chunk buffer, a split of the chunk buffer aimed at the running IDs, a
select of one of the assigned IDs, or a bitmap conversion. -/
theorem mem_loaderRowsEvents (file : Option (List Nat)) (cw ch bc : Nat) :
    ∀ k pos buf bid e, e ∈ loaderRowsEvents file cw ch bc k pos buf bid →
      e = Ev.vdp (Cmd.clearBuffer chunkStoreID) ∨
      (∃ n, e = Ev.readFile n ∧ n ≤ chunkSize) ∨
      (∃ data, e = Ev.vdp (Cmd.writeBlockData chunkStoreID chunkSize data)) ∨
      (∃ m, m < k ∧ e = Ev.vdp (Cmd.splitByWidthMultipleFrom chunkStoreID cw bc
        ((bid + m * bc) % 65536))) ∨
      (∃ m, m < k * bc ∧ e = Ev.vdp (Cmd.selectBitmap ((bid + m) % 65536))) ∨
      e = Ev.vdp (Cmd.bitmapFromBuffer cw ch RGBA2222_format) := by
  intro k
  induction k with
  | zero => intro pos buf bid e h; simp [loaderRowsEvents] at h
  | succ k ih =>
      intro pos buf bid e h
      simp only [loaderRowsEvents, List.mem_cons, List.mem_append] at h
      have hcount : freadCount file pos chunkSize ≤ chunkSize := by
        cases file with
        | none => simp [freadCount]
        | some bytes => simp [freadCount]
      rcases h with h | h | h | h | h | h
      · exact Or.inl h
      · exact Or.inr (Or.inl ⟨freadCount file pos chunkSize, h, hcount⟩)
      · exact Or.inr (Or.inr (Or.inl ⟨freadBuf file pos buf chunkSize, h⟩))
      · refine Or.inr (Or.inr (Or.inr (Or.inl ⟨0, by omega, ?_⟩)))
        rw [h, Nat.zero_mul, Nat.add_zero]
      · rcases mem_convertEvents cw ch bc bid e h with ⟨j, hj, he⟩ | he
        · refine Or.inr (Or.inr (Or.inr (Or.inr (Or.inl ⟨j, ?_, he⟩))))
          calc j < bc := hj
            _ ≤ k * bc + bc := Nat.le_add_left bc (k * bc)
            _ = (k + 1) * bc := (Nat.succ_mul k bc).symm
        · exact Or.inr (Or.inr (Or.inr (Or.inr (Or.inr he))))
      · rcases ih (pos + freadCount file pos chunkSize) (freadBuf file pos buf chunkSize)
          (bid + bc) e h with h' | h' | h' | ⟨m, hm, he⟩ | ⟨m, hm, he⟩ | h'
        · exact Or.inl h'
        · exact Or.inr (Or.inl h')
        · exact Or.inr (Or.inr (Or.inl h'))
        · refine Or.inr (Or.inr (Or.inr (Or.inl ⟨m + 1, by omega, ?_⟩)))
          rw [he]
          have : bid + bc + m * bc = bid + (m + 1) * bc := by ring
          rw [this]
        · refine Or.inr (Or.inr (Or.inr (Or.inr (Or.inl ⟨m + bc, ?_, ?_⟩))))
          · calc m + bc < k * bc + bc := by omega
              _ = (k + 1) * bc := (Nat.succ_mul k bc).symm
          · rw [he]
            have : bid + bc + m = bid + (m + bc) := by omega
            rw [this]
        · exact Or.inr (Or.inr (Or.inr (Or.inr (Or.inr h'))))

/-- With a sufficiently long file, every read of the row loop reads exactly
`chunkSize` bytes. -/
theorem readFile_mem_rows_full (bytes : List Nat) (cw ch bc : Nat) :
    ∀ k pos buf bid n, pos + k * chunkSize ≤ bytes.length →
      Ev.readFile n ∈ loaderRowsEvents (some bytes) cw ch bc k pos buf bid →
      n = chunkSize := by
  intro k
  induction k with
  | zero => intro pos buf bid n h hm; simp [loaderRowsEvents] at hm
  | succ k ih =>
      intro pos buf bid n h hm
      have hmulc : (k + 1) * chunkSize = k * chunkSize + chunkSize := Nat.succ_mul k chunkSize
      have hn : freadCount (some bytes) pos chunkSize = chunkSize := by
        simp only [freadCount]
        omega
      simp only [loaderRowsEvents, List.mem_cons, List.mem_append] at hm
      rcases hm with hm | hm | hm | hm | hm | hm
      · exact Ev.noConfusion hm
      · simp only [Ev.readFile.injEq] at hm
        rw [hm, hn]
      · exact Ev.noConfusion hm
      · exact Ev.noConfusion hm
      · exact absurd hm (readFile_not_mem_convertEvents cw ch bc bid n)
      · refine ih (pos + freadCount (some bytes) pos chunkSize)
          (freadBuf (some bytes) pos buf chunkSize) (bid + bc) n ?_ hm
        rw [hn]
        omega

/-- **C4**.  Under the loader's implicit preconditions (counts within the
8-bit loop counters, a `uint16_t` start ID, and a file of at least
`rowCount × chunkSize` bytes as §6 of the spec requires), the loader opens
the file for reading; then for each of `rowCount` iterations it performs, in
order: clear the chunk-holding buffer (the same, reused, buffer each row),
read exactly `chunkSize` bytes into the fixed-size local buffer, transfer
those bytes into the chunk-holding buffer, partition that buffer into
`blockCount` equal-width sub-buffers with IDs starting at the running
counter, then `blockCount` select-and-convert operations with the configured
format and cell dimensions, incrementing the counter after each; the file is
closed after all rows. -/
theorem C4_loader_algorithm (bytes : List Nat) (fileName : String)
    (s cw ch rc bc fuel : Nat) (hrc : rc ≤ 255) (hbc : bc ≤ 255) (hs : s < 65536)
    (hlen : rc * chunkSize ≤ bytes.length) (hfuel : rc + bc < fuel) :
    load_tiles_from_file fuel (some bytes) fileName s cw ch rc bc =
      some (loaderSpecEvents (some bytes) fileName s cw ch rc bc) ∧
    ∀ n, Ev.readFile n ∈ loaderSpecEvents (some bytes) fileName s cw ch rc bc →
      n = chunkSize := by
  refine ⟨load_eq (some bytes) fileName s cw ch rc bc fuel hrc hbc hs hfuel, fun n hm => ?_⟩
  simp only [loaderSpecEvents, List.mem_cons, List.mem_append, List.not_mem_nil,
    or_false] at hm
  rcases hm with (hm | hm) | hm
  · exact Ev.noConfusion hm
  · exact readFile_mem_rows_full bytes cw ch bc rc 0 (List.replicate 2048 0) s n
      (by omega) hm
  · exact Ev.noConfusion hm

/-- Witness for C4 at the program's own call with a full-size file. -/
theorem C4_loader_algorithm_witness :
    (5 ≤ 255 ∧ 8 ≤ 255 ∧ 0 < 65536 ∧
      5 * chunkSize ≤ (List.replicate 10240 (0 : Nat)).length ∧ 5 + 8 < 14) ∧
    (load_tiles_from_file 14 (some (List.replicate 10240 0)) fname 0 16 16 5 8 =
      some (loaderSpecEvents (some (List.replicate 10240 0)) fname 0 16 16 5 8) ∧
    ∀ n, Ev.readFile n ∈ loaderSpecEvents (some (List.replicate 10240 0)) fname 0 16 16 5 8 →
      n = chunkSize) :=
  ⟨⟨by decide, by decide, by decide, by rw [List.length_replicate]; decide, by decide⟩,
   C4_loader_algorithm (List.replicate 10240 0) fname 0 16 16 5 8 14 (by decide) (by decide)
     (by decide) (by rw [List.length_replicate]; decide) (by decide)⟩

/-- The kinds of the row-loop events do not depend on the file state, the
read position, or the local buffer content. -/
theorem evKind_rows (cw ch bc : Nat) :
    ∀ k (fileA fileB : Option (List Nat)) posA posB bufA bufB bid,
      (loaderRowsEvents fileA cw ch bc k posA bufA bid).map evKind =
      (loaderRowsEvents fileB cw ch bc k posB bufB bid).map evKind := by
  intro k
  induction k with
  | zero => intros; rfl
  | succ k ih =>
      intro fileA fileB posA posB bufA bufB bid
      simp only [loaderRowsEvents, List.map_cons, List.map_append, evKind]
      rw [ih fileA fileB (posA + freadCount fileA posA chunkSize)
        (posB + freadCount fileB posB chunkSize) (freadBuf fileA posA bufA chunkSize)
        (freadBuf fileB posB bufB chunkSize) (bid + bc)]

/-- **C7**.  The Tile Loader never detects, reports, or branches on failure:
for every two file states (present, missing, or short), the loader emits the
same number and kind of events in the same order (only the read byte counts
and the transferred payload differ) and returns normally; no error result
exists in its result type. -/
theorem C7_no_error_detection (fileA fileB : Option (List Nat)) (fileName : String)
    (s cw ch rc bc fuelA fuelB : Nat) (hrc : rc ≤ 255) (hbc : bc ≤ 255) (hs : s < 65536)
    (hfuelA : rc + bc < fuelA) (hfuelB : rc + bc < fuelB) :
    (loadEvents fuelA fileA fileName s cw ch rc bc).map evKind =
      (loadEvents fuelB fileB fileName s cw ch rc bc).map evKind ∧
    (load_tiles_from_file fuelA fileA fileName s cw ch rc bc).isSome ∧
    (load_tiles_from_file fuelB fileB fileName s cw ch rc bc).isSome := by
  refine ⟨?_, ?_, ?_⟩
  · rw [loadEvents_eq fileA fileName s cw ch rc bc fuelA hrc hbc hs hfuelA,
      loadEvents_eq fileB fileName s cw ch rc bc fuelB hrc hbc hs hfuelB]
    simp only [loaderSpecEvents, List.map_cons, List.map_append, evKind]
    rw [evKind_rows cw ch bc rc fileA fileB 0 0 (List.replicate 2048 0)
      (List.replicate 2048 0) s]
  · rw [load_eq fileA fileName s cw ch rc bc fuelA hrc hbc hs hfuelA]
    rfl
  · rw [load_eq fileB fileName s cw ch rc bc fuelB hrc hbc hs hfuelB]
    rfl

/-- Witness for C7: a missing file against a 100-byte (short) file, at the
program's own arguments. -/
theorem C7_no_error_detection_witness :
    (5 ≤ 255 ∧ 8 ≤ 255 ∧ 0 < 65536 ∧ 5 + 8 < 14 ∧ 5 + 8 < 20) ∧
    ((loadEvents 14 none fname 0 16 16 5 8).map evKind =
      (loadEvents 20 (some (List.replicate 100 7)) fname 0 16 16 5 8).map evKind ∧
    (load_tiles_from_file 14 none fname 0 16 16 5 8).isSome ∧
    (load_tiles_from_file 20 (some (List.replicate 100 7)) fname 0 16 16 5 8).isSome) :=
  ⟨⟨by decide, by decide, by decide, by decide, by decide⟩,
   C7_no_error_detection none (some (List.replicate 100 7)) fname 0 16 16 5 8 14 20
     (by decide) (by decide) (by decide) (by decide) (by decide)⟩

/-- **C9**.  Every file read performed by the Tile Loader reads at most
`chunkSize = 2048` bytes into `readChunk`, whose size is exactly 2048 bytes,
and reading preserves that size: no read ever writes outside the bounds of
`readChunk`. -/
theorem C9_read_in_bounds (file : Option (List Nat)) (fileName : String)
    (s cw ch rc bc fuel : Nat) (hrc : rc ≤ 255) (hbc : bc ≤ 255) (hs : s < 65536)
    (hfuel : rc + bc < fuel) :
    chunkSize = 2048 ∧
    (List.replicate 2048 (0 : Nat)).length = 2048 ∧
    (∀ n, Ev.readFile n ∈ loadEvents fuel file fileName s cw ch rc bc → n ≤ chunkSize) ∧
    (∀ pos buf, buf.length = 2048 →
      (freadBuf file pos buf chunkSize).length = 2048) := by
  refine ⟨rfl, by rw [List.length_replicate], fun n hm => ?_, fun pos buf hbuf => ?_⟩
  · rw [loadEvents_eq file fileName s cw ch rc bc fuel hrc hbc hs hfuel] at hm
    simp only [loaderSpecEvents, List.mem_cons, List.mem_append, List.not_mem_nil,
      or_false] at hm
    rcases hm with (hm | hm) | hm
    · exact Ev.noConfusion hm
    · rcases mem_loaderRowsEvents file cw ch bc rc 0 (List.replicate 2048 0) s _ hm with
        h | ⟨n', hn', hle⟩ | ⟨d, hd⟩ | ⟨m, hm', he⟩ | ⟨m, hm', he⟩ | h
      · exact Ev.noConfusion h
      · simp only [Ev.readFile.injEq] at hn'
        omega
      · exact Ev.noConfusion hd
      · exact Ev.noConfusion he
      · exact Ev.noConfusion he
      · exact Ev.noConfusion h
    · exact Ev.noConfusion hm
  · cases file with
    | none => exact hbuf
    | some bytes =>
        simp only [freadBuf, List.length_append, List.length_take, List.length_drop]
        have h1 : min chunkSize (bytes.length - pos) ≤ 2048 :=
          Nat.min_le_left chunkSize (bytes.length - pos)
        have h2 : min chunkSize (bytes.length - pos) ≤ bytes.length - pos :=
          Nat.min_le_right chunkSize (bytes.length - pos)
        have h3 : min (min chunkSize (bytes.length - pos)) (bytes.length - pos) =
            min chunkSize (bytes.length - pos) := Nat.min_eq_left h2
        rw [h3, hbuf]
        omega

/-- Witness for C9 at the program's own arguments, with the file missing. -/
theorem C9_read_in_bounds_witness :
    (5 ≤ 255 ∧ 8 ≤ 255 ∧ 0 < 65536 ∧ 5 + 8 < 14) ∧
    (chunkSize = 2048 ∧
    (List.replicate 2048 (0 : Nat)).length = 2048 ∧
    (∀ n, Ev.readFile n ∈ loadEvents 14 none fname 0 16 16 5 8 → n ≤ chunkSize) ∧
    (∀ pos buf, buf.length = 2048 → (freadBuf none pos buf chunkSize).length = 2048)) :=
  ⟨⟨by decide, by decide, by decide, by decide⟩,
   C9_read_in_bounds none fname 0 16 16 5 8 14 (by decide) (by decide) (by decide)
     (by decide)⟩

/-! ## Interpreting the renderer and the remaining `main` phases -/

theorem runVdp_displayRow (r : Nat) :
    ∀ k c bid S, bid + k ≤ 65535 →
      ((runVdp ((displayRowCmds r k c bid).1.map Ev.vdp) S).plots =
        S.plots ++ ((List.range k).map fun j => (bid + j, 10 + (c + j) * 20, 10 + r * 20))) ∧
      ((runVdp ((displayRowCmds r k c bid).1.map Ev.vdp) S).bitmaps = S.bitmaps) ∧
      ((runVdp ((displayRowCmds r k c bid).1.map Ev.vdp) S).buffers = S.buffers) := by
  intro k
  induction k with
  | zero =>
      intro c bid S h
      exact ⟨by simp [displayRowCmds, runVdp], rfl, rfl⟩
  | succ k ih =>
      intro c bid S h
      have hb : bid % 65536 = bid := Nat.mod_eq_of_lt (by omega)
      have hb1 : (bid + 1) % 65536 = bid + 1 := Nat.mod_eq_of_lt (by omega)
      have hstep : runVdp ((displayRowCmds r (k + 1) c bid).1.map Ev.vdp) S =
          runVdp ((displayRowCmds r k (c + 1) ((bid + 1) % 65536)).1.map Ev.vdp)
            (evStep (evStep S (Ev.vdp (Cmd.selectBitmap bid)))
              (Ev.vdp (Cmd.plotBitmap (10 + c * 20) (10 + r * 20)))) := rfl
      rw [hstep, hb1]
      obtain ⟨ihp, ihm, ihb⟩ := ih (c + 1) (bid + 1)
        (evStep (evStep S (Ev.vdp (Cmd.selectBitmap bid)))
          (Ev.vdp (Cmd.plotBitmap (10 + c * 20) (10 + r * 20)))) (by omega)
      have hplots2 : (evStep (evStep S (Ev.vdp (Cmd.selectBitmap bid)))
          (Ev.vdp (Cmd.plotBitmap (10 + c * 20) (10 + r * 20)))).plots =
          S.plots ++ [(bid, 10 + c * 20, 10 + r * 20)] := by
        simp only [evStep, vdpStep, hb]
      refine ⟨?_, ihm, ihb⟩
      rw [ihp, hplots2, List.range_succ_eq_map, List.map_cons, List.map_map,
        List.append_assoc, List.singleton_append]
      congr 1
      congr 1
      refine List.map_congr_left fun j hj => ?_
      have e1 : bid + 1 + j = bid + (j + 1) := by omega
      have e2 : c + 1 + j = c + (j + 1) := by omega
      simp only [Function.comp]
      rw [e1, e2]

theorem runVdp_displayGrid (columns : Nat) :
    ∀ k r bid S, bid + k * columns ≤ 65535 →
      ((runVdp ((displayGridCmds columns k r bid).map Ev.vdp) S).plots =
        S.plots ++ ((List.range k).flatMap fun rr => (List.range columns).map fun j =>
          (bid + (rr * columns + j), 10 + j * 20, 10 + (r + rr) * 20))) ∧
      ((runVdp ((displayGridCmds columns k r bid).map Ev.vdp) S).bitmaps = S.bitmaps) := by
  intro k
  induction k with
  | zero =>
      intro r bid S h
      exact ⟨by simp [displayGridCmds, runVdp], rfl⟩
  | succ k ih =>
      intro r bid S h
      have hmul : (k + 1) * columns = k * columns + columns := Nat.succ_mul k columns
      have hb : bid % 65536 = bid := Nat.mod_eq_of_lt (by omega)
      have hsnd : (displayRowCmds r columns 0 bid).2 = (bid + columns) % 65536 := by
        have := displayRowCmds_eq r columns 0 bid
        rw [hb] at this
        exact congrArg Prod.snd this
      have hbc : (bid + columns) % 65536 = bid + columns := Nat.mod_eq_of_lt (by omega)
      have hev : (displayGridCmds columns (k + 1) r bid).map Ev.vdp =
          (displayRowCmds r columns 0 bid).1.map Ev.vdp ++
          (displayGridCmds columns k (r + 1) (bid + columns)).map Ev.vdp := by
        show ((displayRowCmds r columns 0 bid).1 ++
          displayGridCmds columns k (r + 1) (displayRowCmds r columns 0 bid).2).map Ev.vdp = _
        rw [hsnd, hbc, List.map_append]
      rw [hev, runVdp_append]
      obtain ⟨hrp, hrm, hrb⟩ := runVdp_displayRow r columns 0 bid S (by omega)
      obtain ⟨ihp, ihm⟩ := ih (r + 1) (bid + columns)
        (runVdp ((displayRowCmds r columns 0 bid).1.map Ev.vdp) S) (by omega)
      refine ⟨?_, by rw [ihm, hrm]⟩
      rw [ihp, hrp, List.append_assoc, List.range_succ_eq_map, List.flatMap_cons,
        List.flatMap_map]
      congr 1
      congr 1
      · refine List.map_congr_left fun j hj => ?_
        have e1 : bid + j = bid + (0 * columns + j) := by
          rw [Nat.zero_mul, Nat.zero_add]
        have e2 : (0 : Nat) + j = j := Nat.zero_add j
        rw [e2, ← e1, Nat.add_zero]
      · refine flatMap_congr fun rr hrr => List.map_congr_left fun j hj => ?_
        show (bid + columns + (rr * columns + j), 10 + j * 20, 10 + (r + 1 + rr) * 20) = _
        have e1 : bid + columns + (rr * columns + j) = bid + ((rr + 1) * columns + j) := by
          ring
        have e2 : r + 1 + rr = r + (rr + 1) := by omega
        rw [e1, e2]

theorem runVdp_pollKeys : ∀ (ks : List Nat) (S : VdpState),
    runVdp (ks.map Ev.pollKey) S = S := by
  intro ks
  induction ks with
  | nil => intro S; rfl
  | cons k ks ih => intro S; exact ih S

theorem runVdp_setupEvents (S : VdpState) : runVdp setupEvents S = S := rfl

theorem runVdp_teardownEvents (S : VdpState) : runVdp teardownEvents S = S := rfl

/-! ## No plot is emitted by the loader, at any fuel -/

theorem no_plot_innerLoop (cw ch bc : Nat) :
    ∀ fuel ctr bid p, innerLoop cw ch bc fuel ctr bid = some p →
      ∀ e ∈ p.1, isPlotEv e = false := by
  intro fuel
  induction fuel with
  | zero => intro ctr bid p h; exact Option.noConfusion h
  | succ f ih =>
      intro ctr bid p h e he
      by_cases hc : ctr < bc
      · simp only [innerLoop, if_pos hc] at h
        cases hrec : innerLoop cw ch bc f ((ctr + 1) % 256) ((bid + 1) % 65536) with
        | none => rw [hrec] at h; exact Option.noConfusion h
        | some q =>
            rw [hrec] at h
            simp only [Option.some.injEq] at h
            rw [← h] at he
            simp only [List.mem_cons] at he
            rcases he with he | he | he
            · rw [he]; rfl
            · rw [he]; rfl
            · exact ih ((ctr + 1) % 256) ((bid + 1) % 65536) q hrec e he
      · simp only [innerLoop, if_neg hc, Option.some.injEq] at h
        rw [← h] at he
        simp at he

theorem no_plot_outerLoop (file : Option (List Nat)) (cw ch rc bc : Nat) :
    ∀ fuel ctr pos buf bid evs, outerLoop file cw ch rc bc fuel ctr pos buf bid = some evs →
      ∀ e ∈ evs, isPlotEv e = false := by
  intro fuel
  induction fuel with
  | zero => intro ctr pos buf bid evs h; exact Option.noConfusion h
  | succ f ih =>
      intro ctr pos buf bid evs h e he
      by_cases hc : ctr < rc
      · simp only [outerLoop, if_pos hc] at h
        cases hinner : innerLoop cw ch bc (f + 1) 0 bid with
        | none => rw [hinner] at h; exact Option.noConfusion h
        | some p =>
            simp only [hinner] at h
            cases hrec : outerLoop file cw ch rc bc f ((ctr + 1) % 256)
                (pos + freadCount file pos chunkSize) (freadBuf file pos buf chunkSize)
                p.2 with
            | none =>
                simp only [hrec] at h
                exact Option.noConfusion h
            | some evs2 =>
                simp only [hrec, Option.some.injEq] at h
                rw [← h] at he
                simp only [List.mem_cons, List.mem_append] at he
                rcases he with he | he | he | he | he | he
                · rw [he]; rfl
                · rw [he]; rfl
                · rw [he]; rfl
                · rw [he]; rfl
                · exact no_plot_innerLoop cw ch bc (f + 1) 0 bid p hinner e he
                · exact ih ((ctr + 1) % 256) (pos + freadCount file pos chunkSize)
                    (freadBuf file pos buf chunkSize) p.2 evs2 hrec e he
      · simp only [outerLoop, if_neg hc, Option.some.injEq] at h
        rw [← h] at he
        simp at he

theorem no_plot_load (fuel : Nat) (file : Option (List Nat)) (fileName : String)
    (s cw ch rc bc : Nat) (evs : List Ev)
    (h : load_tiles_from_file fuel file fileName s cw ch rc bc = some evs) :
    ∀ e ∈ evs, isPlotEv e = false := by
  intro e he
  simp only [load_tiles_from_file] at h
  cases houter : outerLoop file cw ch rc bc fuel 0 0 (List.replicate 2048 0) s with
  | none => rw [houter] at h; exact Option.noConfusion h
  | some oevs =>
      rw [houter] at h
      simp only [Option.some.injEq] at h
      rw [← h] at he
      simp only [List.mem_cons, List.mem_append, List.not_mem_nil, or_false] at he
      rcases he with (he | he) | he
      · rw [he]; rfl
      · exact no_plot_outerLoop file cw ch rc bc fuel 0 0 (List.replicate 2048 0) s oevs
          houter e he
      · rw [he]; rfl

/-! ## Pairwise ordering helpers -/

theorem list_pairwise_of_mem {α : Type} {R : α → α → Prop} :
    ∀ (l : List α), (∀ a ∈ l, ∀ b ∈ l, R a b) → l.Pairwise R := by
  intro l
  induction l with
  | nil => intro h; exact List.Pairwise.nil
  | cons a t ih =>
      intro h
      refine List.Pairwise.cons (fun b hb => h a (List.mem_cons_self a t) b
        (List.mem_cons_of_mem a hb)) (ih fun x hx y hy =>
          h x (List.mem_cons_of_mem a hx) y (List.mem_cons_of_mem a hy))

theorem pairwise_plot_convert (l1 l2 : List Ev)
    (h1 : ∀ e ∈ l1, isPlotEv e = false) (h2 : ∀ e ∈ l2, isConvertEv e = false) :
    (l1 ++ l2).Pairwise (fun a b => isPlotEv a = true → isConvertEv b = false) := by
  rw [List.pairwise_append]
  refine ⟨list_pairwise_of_mem l1 fun x hx y hy hp => absurd hp (by simp [h1 x hx]),
    list_pairwise_of_mem l2 fun x hx y hy hp => h2 y hy,
    fun a ha b hb hp => h2 b hb⟩

/-! ## The wait-for-ESC loop -/

theorem waitForEsc_spec : ∀ (keys : List Nat) (n : Nat), waitForEsc keys = some n →
    keys[n]? = some 27 ∧ ∀ i, i < n → keys[i]? ≠ some 27 := by
  intro keys
  induction keys with
  | nil => intro n h; exact Option.noConfusion h
  | cons k ks ih =>
      intro n h
      by_cases hk : k = 27
      · simp only [waitForEsc, if_pos hk] at h
        simp only [Option.some.injEq] at h
        subst h
        exact ⟨by simp [hk], fun i hi => absurd hi (by omega)⟩
      · simp only [waitForEsc, if_neg hk] at h
        cases hws : waitForEsc ks with
        | none => rw [hws] at h; exact Option.noConfusion h
        | some m =>
            rw [hws] at h
            simp only [Option.map_some', Option.some.injEq] at h
            subst h
            obtain ⟨h1, h2⟩ := ih m hws
            refine ⟨by simpa using h1, fun i hi => ?_⟩
            cases i with
            | zero => simp [hk]
            | succ j =>
                rw [List.getElem?_cons_succ]
                exact h2 j (by omega)

/-- **C5**.  The program exits its final wait loop only when a keycode of 27
(ESC) is observed — never at an earlier poll — and upon exit it restores the
text background colour, clears the screen, re-enables the text cursor, and
returns status 0; when no ESC ever arrives the program does not exit. -/
theorem C5_exit_on_esc :
    (∀ (fuel : Nat) (file : Option (List Nat)) (keys : List Nat) (n : Nat),
      waitForEsc keys = some n → 13 < fuel →
      ∃ evs, mainRun fuel file keys = some (evs, 0) ∧
        keys[n]? = some 27 ∧ (∀ i, i < n → keys[i]? ≠ some 27) ∧
        ∃ pre, evs = pre ++ teardownEvents) ∧
    (∀ (fuel : Nat) (file : Option (List Nat)) (keys : List Nat),
      waitForEsc keys = none → mainRun fuel file keys = none) := by
  constructor
  · intro fuel file keys n hw hfuel
    have h13 : cellRows + cellColumns = 13 := rfl
    have hload := load_eq file fname tileStartID cellWidth cellHeight cellRows cellColumns
      fuel (by decide) (by decide) (by decide) (by omega)
    obtain ⟨h1, h2⟩ := waitForEsc_spec keys n hw
    refine ⟨setupEvents ++
      (loaderSpecEvents file fname tileStartID cellWidth cellHeight cellRows cellColumns ++
       ((display_tiles 5 8 tileStartID).map Ev.vdp ++
        ((keys.take (n + 1)).map Ev.pollKey ++ teardownEvents))), ?_, h1, h2,
      setupEvents ++
      (loaderSpecEvents file fname tileStartID cellWidth cellHeight cellRows cellColumns ++
       ((display_tiles 5 8 tileStartID).map Ev.vdp ++
        (keys.take (n + 1)).map Ev.pollKey)), ?_⟩
    · simp only [mainRun, hload, hw]
    · simp only [List.append_assoc]
  · intro fuel file keys hw
    cases hload : load_tiles_from_file fuel file fname tileStartID cellWidth cellHeight
        cellRows cellColumns with
    | none => simp only [mainRun, hload]
    | some levs => simp only [mainRun, hload, hw]

/-- Witness for C5: a run whose very first poll returns ESC. -/
theorem C5_exit_on_esc_witness :
    (waitForEsc [27] = some 0 ∧ 13 < 14) ∧
    (∃ evs, mainRun 14 none [27] = some (evs, 0) ∧
      [27][0]? = some 27 ∧ (∀ i, i < 0 → [27][i]? ≠ some 27) ∧
      ∃ pre, evs = pre ++ teardownEvents) :=
  ⟨⟨by decide, by decide⟩, C5_exit_on_esc.1 14 none [27] 0 (by decide) (by decide)⟩

theorem mainRun_some_eq (fuel : Nat) (file : Option (List Nat)) (keys : List Nat)
    (levs : List Ev) (n : Nat)
    (hl : load_tiles_from_file fuel file fname tileStartID cellWidth cellHeight cellRows
      cellColumns = some levs)
    (hw : waitForEsc keys = some n) :
    mainRun fuel file keys = some (setupEvents ++
      (levs ++ ((display_tiles 5 8 tileStartID).map Ev.vdp ++
        ((keys.take (n + 1)).map Ev.pollKey ++ teardownEvents))), 0) := by
  simp only [mainRun, hl, hw]

/-- **C6**.  In every run of the program, no plot command ever precedes a
bitmap-conversion command in the emitted event sequence: the Tile Loader
(which emits all conversions) runs to completion before the Grid Renderer
(which emits all plots) begins. -/
theorem C6_no_plot_before_convert (fuel : Nat) (file : Option (List Nat)) (keys : List Nat) :
    (mainEvents fuel file keys).Pairwise
      (fun a b => isPlotEv a = true → isConvertEv b = false) := by
  cases hl : load_tiles_from_file fuel file fname tileStartID cellWidth cellHeight cellRows
      cellColumns with
  | none =>
      have hrun : mainRun fuel file keys = none := by simp only [mainRun, hl]
      simp only [mainEvents, hrun, Option.map_none', Option.getD_none]
      exact List.Pairwise.nil
  | some levs =>
      cases hw : waitForEsc keys with
      | none =>
          have hrun : mainRun fuel file keys = none := by simp only [mainRun, hl, hw]
          simp only [mainEvents, hrun, Option.map_none', Option.getD_none]
          exact List.Pairwise.nil
      | some n =>
          have hrun := mainRun_some_eq fuel file keys levs n hl hw
          have hme : mainEvents fuel file keys = setupEvents ++
              (levs ++ ((display_tiles 5 8 tileStartID).map Ev.vdp ++
                ((keys.take (n + 1)).map Ev.pollKey ++ teardownEvents))) := by
            simp only [mainEvents, hrun, Option.map_some', Option.getD_some]
          have hassoc : setupEvents ++
              (levs ++ ((display_tiles 5 8 tileStartID).map Ev.vdp ++
                ((keys.take (n + 1)).map Ev.pollKey ++ teardownEvents))) =
              (setupEvents ++ levs) ++ ((display_tiles 5 8 tileStartID).map Ev.vdp ++
                ((keys.take (n + 1)).map Ev.pollKey ++ teardownEvents)) := by
            rw [List.append_assoc]
          rw [hme, hassoc]
          refine pairwise_plot_convert _ _ ?_ ?_
          · intro e he
            rw [List.mem_append] at he
            rcases he with he | he
            · have hall : setupEvents.all (fun e => !(isPlotEv e)) = true := by decide
              have := List.all_eq_true.mp hall e he
              simpa using this
            · exact no_plot_load fuel file fname tileStartID cellWidth cellHeight cellRows
                cellColumns levs hl e he
          · intro e he
            rw [List.mem_append] at he
            rcases he with he | he
            · obtain ⟨c, hc, rfl⟩ := List.mem_map.mp he
              have hall : (display_tiles 5 8 tileStartID).all
                  (fun c => !(isConvertEv (Ev.vdp c))) = true := by decide
              have := List.all_eq_true.mp hall c hc
              simpa using this
            · rw [List.mem_append] at he
              rcases he with he | he
              · obtain ⟨k, hk, rfl⟩ := List.mem_map.mp he
                rfl
              · have hall : teardownEvents.all (fun e => !(isConvertEv e)) = true := by decide
                have := List.all_eq_true.mp hall e he
                simpa using this

/-- **C3** (amended).  Running the program with its built-in constants
(5 rows, 8 columns, 16×16 cells, chunk size 2048, start ID 0) on a file of
at least `5 × 2048` bytes creates exactly **40** bitmaps with IDs 0 through
**39**, and displays them at positions forming an 8-wide by 5-high grid with
20-pixel pitch starting at `(10, 10)`. -/
theorem C3_end_to_end (bytes keys : List Nat) (n fuel : Nat)
    (hlen : 5 * chunkSize ≤ bytes.length) (hw : waitForEsc keys = some n)
    (hfuel : 13 < fuel) :
    (∀ i, ((runVdp (mainEvents fuel (some bytes) keys) initVdp).bitmaps i).isSome ↔
      i < 40) ∧
    (runVdp (mainEvents fuel (some bytes) keys) initVdp).plots = gridPlots 5 8 0 := by
  have h13 : cellRows + cellColumns = 13 := rfl
  have hload := load_eq (some bytes) fname tileStartID cellWidth cellHeight cellRows
    cellColumns fuel (by decide) (by decide) (by decide) (by omega)
  have hrun := mainRun_some_eq fuel (some bytes) keys _ n hload hw
  have hme : mainEvents fuel (some bytes) keys = setupEvents ++
      (loaderSpecEvents (some bytes) fname tileStartID cellWidth cellHeight cellRows
        cellColumns ++ ((display_tiles 5 8 tileStartID).map Ev.vdp ++
        ((keys.take (n + 1)).map Ev.pollKey ++ teardownEvents))) := by
    simp only [mainEvents, hrun, Option.map_some', Option.getD_some]
  obtain ⟨hlp, hlm⟩ := runVdp_load bytes fname tileStartID cellWidth cellHeight cellRows
    cellColumns fuel (by decide) (by decide) (by decide) (by decide) (by decide)
    hlen (by omega)
  have hle : loadEvents fuel (some bytes) fname tileStartID cellWidth cellHeight cellRows
      cellColumns = loaderSpecEvents (some bytes) fname tileStartID cellWidth cellHeight
      cellRows cellColumns := by
    simp only [loadEvents, hload, Option.getD_some]
  rw [hle] at hlp hlm
  have hsplit : runVdp (mainEvents fuel (some bytes) keys) initVdp =
      runVdp ((display_tiles 5 8 tileStartID).map Ev.vdp)
        (runVdp (loaderSpecEvents (some bytes) fname tileStartID cellWidth cellHeight
          cellRows cellColumns) initVdp) := by
    rw [hme, runVdp_append, runVdp_append, runVdp_append, runVdp_append,
      runVdp_setupEvents, runVdp_pollKeys, runVdp_teardownEvents]
  obtain ⟨hdp, hdm⟩ := runVdp_displayGrid 8 5 0 tileStartID
    (runVdp (loaderSpecEvents (some bytes) fname tileStartID cellWidth cellHeight cellRows
      cellColumns) initVdp) (by decide)
  simp only [display_tiles] at hsplit
  constructor
  · intro i
    rw [hsplit, hdm, hlm i]
    by_cases h : tileStartID ≤ i ∧ i < tileStartID + cellRows * cellColumns
    · rw [if_pos h]
      simp only [Option.isSome_some, true_iff]
      have h2 := h.2
      simp only [tileStartID, cellRows, cellColumns] at h2
      omega
    · rw [if_neg h]
      refine ⟨fun hfalse => absurd hfalse (by simp), fun hi40 => absurd ?_ h⟩
      simp only [tileStartID, cellRows, cellColumns]
      omega
  · rw [hsplit, hdp, hlp, List.nil_append]
    decide

/-- Witness for C3: a 10240-byte file and a keystream whose first poll is
ESC. -/
theorem C3_end_to_end_witness :
    (5 * chunkSize ≤ (List.replicate 10240 (0 : Nat)).length ∧
      waitForEsc [27] = some 0 ∧ 13 < 14) ∧
    ((∀ i, ((runVdp (mainEvents 14 (some (List.replicate 10240 0)) [27])
        initVdp).bitmaps i).isSome ↔ i < 40) ∧
    (runVdp (mainEvents 14 (some (List.replicate 10240 0)) [27]) initVdp).plots =
      gridPlots 5 8 0) :=
  ⟨⟨by rw [List.length_replicate]; decide, by decide, by decide⟩,
   C3_end_to_end (List.replicate 10240 0) [27] 0 14
     (by rw [List.length_replicate]; decide) (by decide) (by decide)⟩

/-- Counterexample to C3 as stated: the program's constants create a bitmap
with ID 32 (in fact IDs run 0 through 39, since the grid is 5 × 8 = 40
cells), contradicting "exactly 32 bitmaps with IDs 0 through 31". -/
theorem C3_cex_40_bitmaps :
    ((runVdp (mainEvents 14 (some (List.replicate 10240 0)) [27]) initVdp).bitmaps
        32).isSome = true ∧
    (runVdp (mainEvents 14 (some (List.replicate 10240 0)) [27]) initVdp).plots.length
      = 40 := by
  constructor
  · rfl
  · rfl

/-- **C10** (amended).  With the program's constants, the chunk-holding
buffer ID (`chunkStoreID = 5000`) is distinct from every bitmap/buffer ID
assigned by the loader (IDs `tileStartID = 0` through **39**): every clear
and write targets only buffer 5000, every select targets an ID below 40, and
every split sources buffer 5000 and targets IDs below 40 — so no write,
split, or bitmap-conversion targeting a tile ID ever aliases the chunk
source buffer, in every iteration of the loader. -/
theorem C10_chunk_buffer_disjoint (file : Option (List Nat)) (fuel : Nat)
    (hfuel : 13 < fuel) :
    (∀ r c : Nat, r < cellRows → c < cellColumns →
      tileStartID + (r * cellColumns + c) ≠ chunkStoreID) ∧
    (∀ i, Ev.vdp (Cmd.selectBitmap i) ∈ loadEvents fuel file fname tileStartID cellWidth
        cellHeight cellRows cellColumns → i < 40 ∧ i ≠ chunkStoreID) ∧
    (∀ i, Ev.vdp (Cmd.clearBuffer i) ∈ loadEvents fuel file fname tileStartID cellWidth
        cellHeight cellRows cellColumns → i = chunkStoreID) ∧
    (∀ i len data, Ev.vdp (Cmd.writeBlockData i len data) ∈ loadEvents fuel file fname
        tileStartID cellWidth cellHeight cellRows cellColumns → i = chunkStoreID) ∧
    (∀ a w cnt st, Ev.vdp (Cmd.splitByWidthMultipleFrom a w cnt st) ∈ loadEvents fuel file
        fname tileStartID cellWidth cellHeight cellRows cellColumns →
      a = chunkStoreID ∧ st + cnt ≤ 40 ∧ st ≠ chunkStoreID) := by
  have h13 : cellRows + cellColumns = 13 := rfl
  have hle := loadEvents_eq file fname tileStartID cellWidth cellHeight cellRows
    cellColumns fuel (by decide) (by decide) (by decide) (by omega)
  refine ⟨?_, ?_, ?_, ?_, ?_⟩
  · intro r c hr hc
    simp only [cellRows, cellColumns] at hr hc
    simp only [tileStartID, cellColumns, chunkStoreID]
    omega
  · intro i hm
    rw [hle] at hm
    simp only [loaderSpecEvents, List.mem_cons, List.mem_append, List.not_mem_nil,
      or_false] at hm
    rcases hm with (hm | hm) | hm
    · exact Ev.noConfusion hm
    · rcases mem_loaderRowsEvents file cellWidth cellHeight cellColumns cellRows 0
        (List.replicate 2048 0) tileStartID _ hm with
          h | ⟨n', hn', _⟩ | ⟨d, hd⟩ | ⟨m, hm', he⟩ | ⟨m, hm', he⟩ | h
      · simp only [Ev.vdp.injEq] at h
        exact Cmd.noConfusion h
      · exact Ev.noConfusion hn'
      · simp only [Ev.vdp.injEq] at hd
        exact Cmd.noConfusion hd
      · simp only [Ev.vdp.injEq] at he
        exact Cmd.noConfusion he
      · simp only [Ev.vdp.injEq, Cmd.selectBitmap.injEq] at he
        simp only [cellRows, cellColumns] at hm'
        simp only [tileStartID] at he
        simp only [chunkStoreID]
        omega
      · simp only [Ev.vdp.injEq] at h
        exact Cmd.noConfusion h
    · exact Ev.noConfusion hm
  · intro i hm
    rw [hle] at hm
    simp only [loaderSpecEvents, List.mem_cons, List.mem_append, List.not_mem_nil,
      or_false] at hm
    rcases hm with (hm | hm) | hm
    · exact Ev.noConfusion hm
    · rcases mem_loaderRowsEvents file cellWidth cellHeight cellColumns cellRows 0
        (List.replicate 2048 0) tileStartID _ hm with
          h | ⟨n', hn', _⟩ | ⟨d, hd⟩ | ⟨m, hm', he⟩ | ⟨m, hm', he⟩ | h
      · simp only [Ev.vdp.injEq, Cmd.clearBuffer.injEq] at h
        exact h
      · exact Ev.noConfusion hn'
      · simp only [Ev.vdp.injEq] at hd
        exact Cmd.noConfusion hd
      · simp only [Ev.vdp.injEq] at he
        exact Cmd.noConfusion he
      · simp only [Ev.vdp.injEq] at he
        exact Cmd.noConfusion he
      · simp only [Ev.vdp.injEq] at h
        exact Cmd.noConfusion h
    · exact Ev.noConfusion hm
  · intro i len data hm
    rw [hle] at hm
    simp only [loaderSpecEvents, List.mem_cons, List.mem_append, List.not_mem_nil,
      or_false] at hm
    rcases hm with (hm | hm) | hm
    · exact Ev.noConfusion hm
    · rcases mem_loaderRowsEvents file cellWidth cellHeight cellColumns cellRows 0
        (List.replicate 2048 0) tileStartID _ hm with
          h | ⟨n', hn', _⟩ | ⟨d, hd⟩ | ⟨m, hm', he⟩ | ⟨m, hm', he⟩ | h
      · simp only [Ev.vdp.injEq] at h
        exact Cmd.noConfusion h
      · exact Ev.noConfusion hn'
      · simp only [Ev.vdp.injEq, Cmd.writeBlockData.injEq] at hd
        exact hd.1
      · simp only [Ev.vdp.injEq] at he
        exact Cmd.noConfusion he
      · simp only [Ev.vdp.injEq] at he
        exact Cmd.noConfusion he
      · simp only [Ev.vdp.injEq] at h
        exact Cmd.noConfusion h
    · exact Ev.noConfusion hm
  · intro a w cnt st hm
    rw [hle] at hm
    simp only [loaderSpecEvents, List.mem_cons, List.mem_append, List.not_mem_nil,
      or_false] at hm
    rcases hm with (hm | hm) | hm
    · exact Ev.noConfusion hm
    · rcases mem_loaderRowsEvents file cellWidth cellHeight cellColumns cellRows 0
        (List.replicate 2048 0) tileStartID _ hm with
          h | ⟨n', hn', _⟩ | ⟨d, hd⟩ | ⟨m, hm', he⟩ | ⟨m, hm', he⟩ | h
      · simp only [Ev.vdp.injEq] at h
        exact Cmd.noConfusion h
      · exact Ev.noConfusion hn'
      · simp only [Ev.vdp.injEq] at hd
        exact Cmd.noConfusion hd
      · simp only [Ev.vdp.injEq, Cmd.splitByWidthMultipleFrom.injEq] at he
        obtain ⟨ha, hw', hcnt, hst⟩ := he
        simp only [cellRows] at hm'
        simp only [tileStartID, cellColumns] at hst hcnt
        simp only [chunkStoreID] at ha ⊢
        refine ⟨ha, ?_, ?_⟩ <;> omega
      · simp only [Ev.vdp.injEq] at he
        exact Cmd.noConfusion he
      · simp only [Ev.vdp.injEq] at h
        exact Cmd.noConfusion h
    · exact Ev.noConfusion hm

/-- Witness for C10 at `fuel = 14` with the file missing. -/
theorem C10_chunk_buffer_disjoint_witness :
    13 < 14 ∧
    ((∀ r c : Nat, r < cellRows → c < cellColumns →
      tileStartID + (r * cellColumns + c) ≠ chunkStoreID) ∧
    (∀ i, Ev.vdp (Cmd.selectBitmap i) ∈ loadEvents 14 none fname tileStartID cellWidth
        cellHeight cellRows cellColumns → i < 40 ∧ i ≠ chunkStoreID) ∧
    (∀ i, Ev.vdp (Cmd.clearBuffer i) ∈ loadEvents 14 none fname tileStartID cellWidth
        cellHeight cellRows cellColumns → i = chunkStoreID) ∧
    (∀ i len data, Ev.vdp (Cmd.writeBlockData i len data) ∈ loadEvents 14 none fname
        tileStartID cellWidth cellHeight cellRows cellColumns → i = chunkStoreID) ∧
    (∀ a w cnt st, Ev.vdp (Cmd.splitByWidthMultipleFrom a w cnt st) ∈ loadEvents 14 none
        fname tileStartID cellWidth cellHeight cellRows cellColumns →
      a = chunkStoreID ∧ st + cnt ≤ 40 ∧ st ≠ chunkStoreID)) :=
  ⟨by decide, C10_chunk_buffer_disjoint none 14 (by decide)⟩

/-- Counterexample to C10 as stated: the loader selects (and converts)
bitmap ID 32, so the assigned IDs are not "0 through 31" — the grid has
5 × 8 = 40 cells and the IDs run 0 through 39. -/
theorem C10_cex_id_32 :
    Ev.vdp (Cmd.selectBitmap 32) ∈ loadEvents 14 none fname 0 16 16 5 8 ∧ ¬ (32 ≤ 31) :=
  ⟨by decide, by decide⟩

end Tilemap
